import Mathlib

/-!
# syncPlayed: played-state reconciliation between two media servers

A shallow embedding of `main.go` and the properties proved about it.

Conventions of the embedding.

* Go strings are Lean `String`s.  The only byte-level operations the program
  performs on them (`strings.HasPrefix` with an ASCII prefix and
  `strings.TrimRight` with the cutset `"/"`) act on single-byte ASCII
  characters, so they are embedded on the list of characters.
* `int` and `int64` values are `Int`: they are only compared, incremented by
  one, or incremented by the page size.
* `*UserData` and `*Item` are `Option`s (`nil` is `none`).
* The HTTP transport, `json.Unmarshal`, `http.NewRequest` and
  `strings.EqualFold` are library code; they are the fields of `Env`, and every
  theorem about the network code holds for every `Env`.
* Console output (`fmt.Printf`, `fmt.Fprintf(os.Stderr, ...)`) is not modelled.
-/

namespace SyncPlayed

/-! ## Data model (lines 15-38) -/

/-- The Go struct `UserData`. -/
structure UserData where
  PlaybackPositionTicks : Int
  PlayCount : Int
  Played : Bool
  deriving DecidableEq, Repr

/-- The Go struct `Item`; the pointer field `UserData` is an `Option`. -/
structure Item where
  Name : String
  Id : String
  RunTimeTicks : Int
  UserData : Option UserData
  deriving DecidableEq, Repr

/-- The Go struct `ItemsResponse`. -/
structure ItemsResponse where
  Items : List Item
  TotalRecordCount : Int
  StartIndex : Int
  deriving DecidableEq, Repr

/-- The Go struct `ServerConfig`. -/
structure ServerConfig where
  Host : String
  UserID : String
  Token : String
  deriving DecidableEq, Repr

/-! ## `ensureScheme` (lines 40-45) -/

/-- The library function `strings.HasPrefix`, on character lists. -/
def hasPrefix : List Char → List Char → Bool
  | _, [] => true
  | [], _ :: _ => false
  | c :: s, p :: ps => if c = p then hasPrefix s ps else false

/-- The library function `strings.TrimRight s cutset`, on character lists:
trailing characters are removed for as long as they belong to `cutset`. -/
def trimRight (s cutset : List Char) : List Char :=
  (s.reverse.dropWhile (fun c => cutset.contains c)).reverse

/-- The function `ensureScheme` of `main.go`. -/
def ensureScheme (h : String) : String :=
  if hasPrefix h.data "http://".data || hasPrefix h.data "https://".data then
    String.mk (trimRight h.data "/".data)
  else
    String.mk ("https://".data ++ trimRight h.data "/".data)

/-! ## `findMatchingItem` (lines 151-171) -/

/-- A loop `for _, c := range candidates { if cond(c) { return &c } }`:
the candidates are visited in order and the first one passing the test is
returned; `none` means the loop ran to its end. -/
def rangeFirst (cond : Item → Bool) : List Item → Option Item
  | [] => none
  | c :: rest => if cond c then some c else rangeFirst cond rest

/-- The function `findMatchingItem` of `main.go`: three loops over the
candidates, by Id (`strings.EqualFold`, passed as `equalFold`), then by name,
then by runtime; `none` is the final `return nil`. -/
def findMatchingItem (equalFold : String → String → Bool) (src : Item)
    (candidates : List Item) : Option Item :=
  match rangeFirst (fun c => equalFold c.Id src.Id) candidates with
  | some c => some c
  | none =>
    match rangeFirst (fun c => decide (c.Name = src.Name)) candidates with
    | some c => some c
    | none =>
      match rangeFirst
          (fun c => decide (src.RunTimeTicks ≠ 0) && decide (src.RunTimeTicks = c.RunTimeTicks))
          candidates with
      | some c => some c
      | none => none

/-- ASCII lower-casing of one character. -/
def asciiLower (c : Char) : Char :=
  if 'A'.toNat ≤ c.toNat ∧ c.toNat ≤ 'Z'.toNat then Char.ofNat (c.toNat + 32) else c

/-- The value of `strings.EqualFold` on ASCII strings: equality of the
lower-cased character lists.  Used for concrete instances. -/
def asciiEqualFold (s t : String) : Bool :=
  decide (s.data.map asciiLower = t.data.map asciiLower)

/-! ## The transport (library code, lines 47-49 and the `net/http` calls) -/

/-- The three requests the program builds.  The URL of each is a function of
the fields kept here:
* `listItems`: `GET {host}/Users/{userID}/Items?IncludeItemTypes=Movie&Recursive=true&Limit={limit}&StartIndex={start}`;
* `searchItems`: `GET {host}/Items?userId={userID}&limit=100&recursive=true&searchTerm={term}`;
* `markPlayed`: `POST {host}/UserPlayedItems/{itemId}?userId={userID}`;
each with the headers `Accept` and `Authorization: MediaBrowser Token="{token}"`. -/
inductive Request where
  | listItems (host userID token : String) (limit start : Int)
  | searchItems (host userID token term : String)
  | markPlayed (host userID token itemId : String)
  deriving DecidableEq, Repr

/-- What the program reads of an `http.Response`: the status code, the status
line and the body (of type `β`, the bytes read by `io.ReadAll`). -/
structure HttpResponse (β : Type) where
  StatusCode : Int
  Status : String
  Body : β

/-- Go `error` values the program returns: the ones handed over by library
calls, and the three built with `fmt.Errorf`. -/
inductive GoError (β : Type) where
  /-- An error returned by `http.NewRequest`, `client.Do` or `json.Unmarshal`. -/
  | lib (msg : String)
  /-- The error `fmt.Errorf("fetch items failed: %s -> %s", resp.Status, string(body))`. -/
  | fetchFailed (status : String) (body : β)
  /-- The error `fmt.Errorf("search items failed: %s -> %s", resp.Status, string(body))`. -/
  | searchFailed (status : String) (body : β)
  /-- The error `fmt.Errorf("mark played failed: %s", resp.Status)`. -/
  | markFailed (status : String)

/-- The library code the program calls, over a server state `σ`:
* `NewRequest` is the error of `http.NewRequest`, if any;
* `Do` is `client.Do` followed by reading the body: it may change the state
  of the servers and yields a transport error or a response;
* `Unmarshal` is `json.Unmarshal` into a fresh `ItemsResponse`;
* `EqualFold` is `strings.EqualFold`. -/
structure Env (σ β : Type) where
  NewRequest : Request → Option String
  Do : σ → Request → σ × Except String (HttpResponse β)
  Unmarshal : β → Except String ItemsResponse
  EqualFold : String → String → Bool

/-- One request handed to `client.Do` together with what came back. -/
structure Exchange (β : Type) where
  req : Request
  resp : Except String (HttpResponse β)

/-- The outcome of running a piece of the program: the state of the servers
afterwards, the exchanges it performed (oldest first) and its return value. -/
structure Run (σ β α : Type) where
  state : σ
  log : List (Exchange β)
  ret : α

/-- The condition `resp.StatusCode < 200 || resp.StatusCode >= 300`. -/
def badStatus {β : Type} (resp : HttpResponse β) : Bool :=
  decide (resp.StatusCode < 200) || decide (resp.StatusCode ≥ 300)

/-- The condition `it.UserData != nil && (it.UserData.Played || it.UserData.PlayCount > 0)`
of lines 84 and 195. -/
def isPlayed (it : Item) : Bool :=
  match it.UserData with
  | none => false
  | some ud => ud.Played || decide (ud.PlayCount > 0)

/-! ## `fetchPlayedItems` (lines 51-96) -/

/-- The inner loop of lines 83-87: the played items of one page are appended
to `results`, in order. -/
def retainPlayed : List Item → List Item → List Item
  | results, [] => results
  | results, it :: rest =>
    if isPlayed it then retainPlayed (results ++ [it]) rest else retainPlayed results rest

/-- The loop `for { ... }` of `fetchPlayedItems` (lines 58-93) with the local
variables `start` and `results` as arguments.  Each unit of `fuel` pays for
one iteration; `none` means the loop is still running when the fuel is spent. -/
def fetchLoop {σ β : Type} (E : Env σ β) (cfg : ServerConfig) (host : String) :
    Nat → σ → Int → List Item → Option (Run σ β (Except (GoError β) (List Item)))
  | 0, _, _, _ => none
  | fuel + 1, s, start, results =>
    let req := Request.listItems host cfg.UserID cfg.Token 100 start
    match E.NewRequest req with
    | some err => some ⟨s, [], .error (.lib err)⟩
    | none =>
      match E.Do s req with
      | (s1, .error err) => some ⟨s1, [⟨req, .error err⟩], .error (.lib err)⟩
      | (s1, .ok resp) =>
        if badStatus resp then
          some ⟨s1, [⟨req, .ok resp⟩], .error (.fetchFailed resp.Status resp.Body)⟩
        else
          match E.Unmarshal resp.Body with
          | .error err => some ⟨s1, [⟨req, .ok resp⟩], .error (.lib err)⟩
          | .ok ir =>
            let results1 := retainPlayed results ir.Items
            if ir.Items.length < 100 then
              some ⟨s1, [⟨req, .ok resp⟩], .ok results1⟩
            else
              match fetchLoop E cfg host fuel s1 (start + 100) results1 with
              | none => none
              | some r => some ⟨r.state, ⟨req, .ok resp⟩ :: r.log, r.ret⟩

/-- The function `fetchPlayedItems` of `main.go`, run from the server state
`s` with `fuel` loop iterations available. -/
def fetchPlayedItems {σ β : Type} (E : Env σ β) (cfg : ServerConfig) (fuel : Nat) (s : σ) :
    Option (Run σ β (Except (GoError β) (List Item))) :=
  fetchLoop E cfg (ensureScheme cfg.Host) fuel s 0 []

/-! ## `searchItems` (lines 98-125) and `markPlayed` (lines 127-149) -/

/-- The function `searchItems` of `main.go`. -/
def searchItems {σ β : Type} (E : Env σ β) (cfg : ServerConfig) (term : String) (s : σ) :
    Run σ β (Except (GoError β) (List Item)) :=
  let req := Request.searchItems (ensureScheme cfg.Host) cfg.UserID cfg.Token term
  match E.NewRequest req with
  | some err => ⟨s, [], .error (.lib err)⟩
  | none =>
    match E.Do s req with
    | (s1, .error err) => ⟨s1, [⟨req, .error err⟩], .error (.lib err)⟩
    | (s1, .ok resp) =>
      if badStatus resp then
        ⟨s1, [⟨req, .ok resp⟩], .error (.searchFailed resp.Status resp.Body)⟩
      else
        match E.Unmarshal resp.Body with
        | .error err => ⟨s1, [⟨req, .ok resp⟩], .error (.lib err)⟩
        | .ok ir => ⟨s1, [⟨req, .ok resp⟩], .ok ir.Items⟩

/-- The function `markPlayed` of `main.go`; the return value is the error,
`none` for `nil`. -/
def markPlayed {σ β : Type} (E : Env σ β) (cfg : ServerConfig) (itemId : String) (s : σ) :
    Run σ β (Option (GoError β)) :=
  let req := Request.markPlayed (ensureScheme cfg.Host) cfg.UserID cfg.Token itemId
  match E.NewRequest req with
  | some err => ⟨s, [], some (.lib err)⟩
  | none =>
    match E.Do s req with
    | (s1, .error err) => ⟨s1, [⟨req, .error err⟩], some (.lib err)⟩
    | (s1, .ok resp) =>
      if badStatus resp then
        ⟨s1, [⟨req, .ok resp⟩], some (.markFailed resp.Status)⟩
      else
        ⟨s1, [⟨req, .ok resp⟩], none⟩

/-! ## `syncDirection` (lines 173-213) -/

/-- One iteration of the loop `for _, it := range played` (lines 183-210):
`marked` is the counter on entry, the return value is the counter on exit. -/
def syncItem {σ β : Type} (E : Env σ β) (toCfg : ServerConfig) (dryRun : Bool)
    (it : Item) (s : σ) (marked : Int) : Run σ β Int :=
  let sr := searchItems E toCfg it.Name s
  match sr.ret with
  | .error _ => ⟨sr.state, sr.log, marked⟩
  | .ok candidates =>
    match findMatchingItem E.EqualFold it candidates with
    | none => ⟨sr.state, sr.log, marked⟩
    | some m =>
      if isPlayed m then ⟨sr.state, sr.log, marked⟩
      else if dryRun then ⟨sr.state, sr.log, marked + 1⟩
      else
        let mr := markPlayed E toCfg m.Id sr.state
        match mr.ret with
        | some _ => ⟨mr.state, sr.log ++ mr.log, marked⟩
        | none => ⟨mr.state, sr.log ++ mr.log, marked + 1⟩

/-- The loop `for _, it := range played` of `syncDirection`. -/
def syncLoop {σ β : Type} (E : Env σ β) (toCfg : ServerConfig) (dryRun : Bool) :
    List Item → σ → Int → Run σ β Int
  | [], s, marked => ⟨s, [], marked⟩
  | it :: rest, s, marked =>
    let r := syncItem E toCfg dryRun it s marked
    let r2 := syncLoop E toCfg dryRun rest r.state r.ret
    ⟨r2.state, r.log ++ r2.log, r2.ret⟩

/-- The function `syncDirection` of `main.go`, run from the server state `s`;
the return value is the pair `(int, error)`.  `fuel` bounds the iterations of
the discovery loop, and `none` means that loop had not ended. -/
def syncDirection {σ β : Type} (E : Env σ β) (fromCfg toCfg : ServerConfig) (dryRun : Bool)
    (fuel : Nat) (s : σ) : Option (Run σ β (Int × Option (GoError β))) :=
  match fetchPlayedItems E fromCfg fuel s with
  | none => none
  | some f =>
    match f.ret with
    | .error err => some ⟨f.state, f.log, (0, some err)⟩
    | .ok played =>
      if played.length = 0 then some ⟨f.state, f.log, (0, none)⟩
      else
        let r := syncLoop E toCfg dryRun played f.state 0
        some ⟨r.state, f.log ++ r.log, (r.ret, none)⟩

/-- The two passes of `main` (lines 240-252): `syncDirection a b` and then
`syncDirection b a`, the second one whether or not the first returned an
error.  The return value is the pair `(n1, n2)`. -/
def mainPasses {σ β : Type} (E : Env σ β) (a b : ServerConfig) (dryRun : Bool)
    (fuel : Nat) (s : σ) : Option (Run σ β (Int × Int)) :=
  match syncDirection E a b dryRun fuel s with
  | none => none
  | some r1 =>
    match syncDirection E b a dryRun fuel r1.state with
    | none => none
    | some r2 => some ⟨r2.state, r1.log ++ r2.log, (r1.ret.1, r2.ret.1)⟩

/-! ## Server behaviour during discovery -/

/-- The listing answers of a server that let the discovery loop run to its end.
`Listing E cfg host s start pages s1` says: from the server state `s`, the
listing requests with `StartIndex` `start`, `start + 100`, ... all succeed (the
request is built, the transport returns a response with a 2xx status and the
body decodes), their decoded `Items` are the lists in `pages`, in order, every
page but the last has at least 100 items, the last one has fewer than 100, and
the servers are left in state `s1`.  Nothing is asked of the fields
`TotalRecordCount` and `StartIndex` of the decoded answers. -/
inductive Listing {σ β : Type} (E : Env σ β) (cfg : ServerConfig) (host : String) :
    σ → Int → List (List Item) → σ → Prop
  | last (s s1 : σ) (start : Int) (resp : HttpResponse β) (ir : ItemsResponse)
      (hreq : E.NewRequest (Request.listItems host cfg.UserID cfg.Token 100 start) = none)
      (hdo : E.Do s (Request.listItems host cfg.UserID cfg.Token 100 start) = (s1, .ok resp))
      (hstatus : badStatus resp = false)
      (hdec : E.Unmarshal resp.Body = .ok ir)
      (hlen : ir.Items.length < 100) :
      Listing E cfg host s start [ir.Items] s1
  | more (s s1 s2 : σ) (start : Int) (resp : HttpResponse β) (ir : ItemsResponse)
      (pages : List (List Item))
      (hreq : E.NewRequest (Request.listItems host cfg.UserID cfg.Token 100 start) = none)
      (hdo : E.Do s (Request.listItems host cfg.UserID cfg.Token 100 start) = (s1, .ok resp))
      (hstatus : badStatus resp = false)
      (hdec : E.Unmarshal resp.Body = .ok ir)
      (hlen : 100 ≤ ir.Items.length)
      (hrest : Listing E cfg host s1 (start + 100) pages s2) :
      Listing E cfg host s start (ir.Items :: pages) s2

/-! ## Vocabulary for the statements about a pass -/

/-- The exchange is a mark-played request that the server accepted: the
transport returned a response and its status is 2xx. -/
def markSucceeded {β : Type} (e : Exchange β) : Bool :=
  match e.req, e.resp with
  | .markPlayed _ _ _ _, .ok resp => !badStatus resp
  | _, _ => false

/-- The request is a mark-played request. -/
def isMarkRequest : Request → Bool
  | .markPlayed _ _ _ _ => true
  | _ => false

/-- What the destination answers when the items of `played` are searched one
after the other, from the server state `s`, nothing else being requested in
between: each item with the return value of its `searchItems` call. -/
def searchAnswers {σ β : Type} (E : Env σ β) (toCfg : ServerConfig) :
    List Item → σ → List (Item × Except (GoError β) (List Item))
  | [], _ => []
  | it :: rest, s =>
    (it, (searchItems E toCfg it.Name s).ret)
      :: searchAnswers E toCfg rest (searchItems E toCfg it.Name s).state

/-- The search of the item succeeded, `findMatchingItem` returned a candidate,
and that candidate is not played. -/
def actionable {β : Type} (ef : String → String → Bool)
    (p : Item × Except (GoError β) (List Item)) : Bool :=
  match p.2 with
  | .error _ => false
  | .ok candidates =>
    match findMatchingItem ef p.1 candidates with
    | none => false
    | some m => !isPlayed m

/-- The exchange `e` is the mark-played request for the match of the search
exchange `e1`: `e1` is the destination search for the name of an item of
`played`, it was answered with a 2xx response whose body decodes to
candidates among which `findMatchingItem` picked `m`, the answer reported `m`
as not played, and `e` asks the destination to mark `m.Id`. -/
def MarkOfSearch {σ β : Type} (E : Env σ β) (toCfg : ServerConfig) (played : List Item)
    (e1 e : Exchange β) : Prop :=
  ∃ it resp ir m, it ∈ played
    ∧ e1.req = Request.searchItems (ensureScheme toCfg.Host) toCfg.UserID toCfg.Token it.Name
    ∧ e1.resp = .ok resp ∧ badStatus resp = false ∧ E.Unmarshal resp.Body = .ok ir
    ∧ findMatchingItem E.EqualFold it ir.Items = some m ∧ isPlayed m = false
    ∧ e.req = Request.markPlayed (ensureScheme toCfg.Host) toCfg.UserID toCfg.Token m.Id

/-- Every mark-played request of the log comes right after the search
exchange that justifies it. -/
def MarksFollowSearch {σ β : Type} (E : Env σ β) (toCfg : ServerConfig) (played : List Item)
    (log : List (Exchange β)) : Prop :=
  ∀ l1 e l2, log = l1 ++ e :: l2 → isMarkRequest e.req = true →
    ∃ l0 e1, l1 = l0 ++ [e1] ∧ MarkOfSearch E toCfg played e1 e

/-! ## Two servers with fixed catalogs -/

/-- The state of two servers, each a fixed catalog of items. -/
structure Catalogs where
  a : List Item
  b : List Item
  deriving DecidableEq, Repr

/-- The catalog of one of the two servers. -/
def pick (isA : Bool) (s : Catalogs) : List Item :=
  if isA then s.a else s.b

/-- Replace the catalog of one of the two servers. -/
def put (isA : Bool) (c : List Item) (s : Catalogs) : Catalogs :=
  if isA then ⟨c, s.b⟩ else ⟨s.a, c⟩

/-- The effect of a mark-played request on one item: `Played` is set. -/
def markItem (it : Item) : Item :=
  { it with
    UserData := some (match it.UserData with
      | some ud => { ud with Played := true }
      | none => ⟨0, 0, true⟩) }

/-- The effect of a mark-played request for `itemId` on a catalog: the items
with that Id become played, nothing else changes. -/
def markCatalog (itemId : String) (cat : List Item) : List Item :=
  cat.map (fun it => if it.Id = itemId then markItem it else it)

/-- The page of a catalog that a listing request gets. -/
def listPage (cat : List Item) (limit start : Int) : List Item :=
  (cat.drop start.toNat).take limit.toNat

/-- The answer of a catalog to a search: the first 100 items that `hit`
relates to the term.  `hit` sees the item without its play state, so the
answer changes with mark-played requests only in the play state it reports. -/
def searchCatalog (hit : String → Item → Bool) (term : String) (cat : List Item) : List Item :=
  (cat.filter (fun it => hit term { it with UserData := none })).take 100

/-- Two servers that behave as fixed catalogs.  The server addressed is `a`
when the host of the request is `hostA`, and `b` otherwise.  Every request is
built and succeeds; listing and search are functions of the catalog, and the
only request that changes a catalog is mark-played, which sets the items with
the given Id to played. -/
def catalogEnv (hostA : String) (hit : String → Item → Bool)
    (ef : String → String → Bool) : Env Catalogs ItemsResponse where
  NewRequest := fun _ => none
  Do := fun s req =>
    match req with
    | .listItems host _ _ limit start =>
      (s, .ok ⟨200, "200 OK",
        ⟨listPage (pick (decide (host = hostA)) s) limit start,
          (pick (decide (host = hostA)) s).length, start⟩⟩)
    | .searchItems host _ _ term =>
      (s, .ok ⟨200, "200 OK",
        ⟨searchCatalog hit term (pick (decide (host = hostA)) s),
          (searchCatalog hit term (pick (decide (host = hostA)) s)).length, 0⟩⟩)
    | .markPlayed host _ _ itemId =>
      (put (decide (host = hostA))
          (markCatalog itemId (pick (decide (host = hostA)) s)) s,
        .ok ⟨204, "204 No Content", ⟨[], 0, 0⟩⟩)
  Unmarshal := fun body => .ok body
  EqualFold := ef

/-- Two runs of `mainPasses` in succession, writing: the counts `(n1, n2)` of
the first run and those of the second run. -/
def twoRuns {σ β : Type} (E : Env σ β) (a b : ServerConfig) (fuel : Nat) (s : σ) :
    Option ((Int × Int) × (Int × Int)) :=
  match mainPasses E a b false fuel s with
  | none => none
  | some r1 =>
    match mainPasses E a b false fuel r1.state with
    | none => none
    | some r2 => some (r1.ret, r2.ret)

/-- The item `y` is the item `x` at a later time: same name, Id and runtime,
and played if `x` was. -/
def Grown (x y : Item) : Prop :=
  x.Name = y.Name ∧ x.Id = y.Id ∧ x.RunTimeTicks = y.RunTimeTicks
    ∧ (isPlayed x = true → isPlayed y = true)

/-- The source item `it` has nothing left to do on the catalog `cat`: the
candidate that `findMatchingItem` picks from the search for its name, if there
is one, is played. -/
def Settled (hit : String → Item → Bool) (ef : String → String → Bool) (cat : List Item)
    (it : Item) : Prop :=
  ∀ m, findMatchingItem ef it (searchCatalog hit it.Name cat) = some m → isPlayed m = true

/-! ## Concrete inputs used in the examples -/

/-- The source item of the precedence example. -/
def precedenceSrc : Item := ⟨"Alpha", "X", 1000, none⟩

/-- The candidates of the precedence example: the first one matches by name,
the second one by Id. -/
def precedenceCands : List Item := [⟨"Alpha", "Y", 999, none⟩, ⟨"Beta", "X", 1, none⟩]

/-- A source item whose runtime is unknown (zero). -/
def zeroRuntimeSrc : Item := ⟨"Alpha", "X", 0, none⟩

/-- Candidates that match `zeroRuntimeSrc` neither by Id nor by name; the
first one also has runtime zero. -/
def zeroRuntimeCands : List Item := [⟨"Beta", "Y", 0, none⟩, ⟨"Gamma", "Z", 7, none⟩]

/-- A server without state, given by its answer to each request: requests are
always built, the body of a response is the decoded `ItemsResponse` itself, and
Ids are compared by `asciiEqualFold`. -/
def scriptEnv (answer : Request → Except String (HttpResponse ItemsResponse)) :
    Env Unit ItemsResponse where
  NewRequest := fun _ => none
  Do := fun s req => (s, answer req)
  Unmarshal := fun body => .ok body
  EqualFold := asciiEqualFold

/-- A `200 OK` response carrying `items`, with a `TotalRecordCount` that has
nothing to do with the items. -/
def okItems (items : List Item) : Except String (HttpResponse ItemsResponse) :=
  .ok ⟨200, "200 OK", ⟨items, 7, 0⟩⟩

/-- A played item: `Played` is set, `PlayCount` is zero. -/
def seenItem : Item := ⟨"Alpha", "a1", 1000, some ⟨0, 0, true⟩⟩

/-- A played item: `Played` is not set, `PlayCount` is positive. -/
def countedItem : Item := ⟨"Beta", "a2", 2000, some ⟨0, 3, false⟩⟩

/-- An item that was never played: `UserData` is there, with no signal set. -/
def unseenItem : Item := ⟨"Gamma", "a3", 3000, some ⟨0, 0, false⟩⟩

/-- An item without `UserData`. -/
def bareItem : Item := ⟨"Delta", "a4", 4000, none⟩

/-- The configuration of the source server in the examples. -/
def cfgA : ServerConfig := ⟨"a.example.org", "ua", "ta"⟩

/-- The configuration of the destination server in the examples. -/
def cfgB : ServerConfig := ⟨"http://b.example.org/", "ub", "tb"⟩

/-- A first page of exactly 100 items. -/
def fullPage : List Item := seenItem :: unseenItem :: List.replicate 98 bareItem

/-- A short second page. -/
def shortPage : List Item := [countedItem, bareItem]

/-- A server that lists `fullPage` at `StartIndex` 0 and `shortPage` after it. -/
def twoPageServer : Env Unit ItemsResponse :=
  scriptEnv (fun req =>
    match req with
    | .listItems _ _ _ _ start => if start = 0 then okItems fullPage else okItems shortPage
    | _ => .error "unreachable")

/-- A destination candidate named like `countedItem`, not played. -/
def betaUnplayed : Item := ⟨"Beta", "b2", 2000, some ⟨0, 0, false⟩⟩

/-- A destination candidate named like `seenItem`, already played. -/
def alphaPlayed : Item := ⟨"Alpha", "b1", 1000, some ⟨0, 1, true⟩⟩

/-- The one page listed by the servers below: its played items are
`seenItem` and `countedItem`. -/
def demoPage : List Item := [seenItem, unseenItem, countedItem, bareItem]

/-- A `204 No Content` response. -/
def noContent : Except String (HttpResponse ItemsResponse) :=
  .ok ⟨204, "204 No Content", ⟨[], 0, 0⟩⟩

/-- A server that lists `demoPage`, times out on the search for `"Alpha"`,
answers every other search with `betaUnplayed`, and accepts mark-played
requests. -/
def flakyServer : Env Unit ItemsResponse :=
  scriptEnv (fun req =>
    match req with
    | .listItems _ _ _ _ _ => okItems demoPage
    | .searchItems _ _ _ term =>
      if term = "Alpha" then .error "timeout" else okItems [betaUnplayed]
    | .markPlayed _ _ _ _ => noContent)

/-- A server that lists `demoPage`, answers the search for `"Alpha"` with
`alphaPlayed` and every other search with `betaUnplayed`, and accepts
mark-played requests. -/
def settledServer : Env Unit ItemsResponse :=
  scriptEnv (fun req =>
    match req with
    | .listItems _ _ _ _ _ => okItems demoPage
    | .searchItems _ _ _ term =>
      if term = "Alpha" then okItems [alphaPlayed] else okItems [betaUnplayed]
    | .markPlayed _ _ _ _ => noContent)

/-- A server that lists `demoPage`, answers every search with `betaUnplayed`
and refuses mark-played requests with status 500. -/
def readOnlyServer : Env Unit ItemsResponse :=
  scriptEnv (fun req =>
    match req with
    | .listItems _ _ _ _ _ => okItems demoPage
    | .searchItems _ _ _ _ => okItems [betaUnplayed]
    | .markPlayed _ _ _ _ => .ok ⟨500, "500 Internal Server Error", ⟨[], 0, 0⟩⟩)

/-- A search that returns the items whose name is the term. -/
def sameName (term : String) (it : Item) : Bool :=
  decide (it.Name = term)

/-- Two servers with one movie named `"Alpha"` on `a`, not played, and two
movies named `"Alpha"` on `b`, of which only the second is played. -/
def remakeCatalogs : Catalogs :=
  ⟨[⟨"Alpha", "2", 0, none⟩],
   [⟨"Alpha", "5", 0, none⟩, ⟨"Alpha", "1", 0, some ⟨0, 1, true⟩⟩]⟩

/-- Two servers with the same two movies, `"Alpha"` played on `a` only and
`"Beta"` played on `b` only. -/
def crossCatalogs : Catalogs :=
  ⟨[⟨"Alpha", "2", 0, some ⟨0, 1, true⟩⟩, ⟨"Beta", "3", 0, none⟩],
   [⟨"Alpha", "5", 0, none⟩, ⟨"Beta", "6", 0, some ⟨0, 1, true⟩⟩]⟩

/-- The environment of the two example servers. -/
def exampleEnv : Env Catalogs ItemsResponse :=
  catalogEnv (ensureScheme cfgA.Host) sameName asciiEqualFold

/-! # Theorems -/

/-! ## Properties of `ensureScheme` -/

/-- `strings.HasPrefix s p` holds exactly when `s` is `p` followed by something. -/
theorem hasPrefix_iff (s p : List Char) : hasPrefix s p = true ↔ ∃ t, s = p ++ t := by
  induction p generalizing s with
  | nil => simp [hasPrefix]
  | cons a p ih =>
    cases s with
    | nil => simp [hasPrefix]
    | cons c s =>
      by_cases hc : c = a
      · subst hc
        simp [hasPrefix, ih]
      · simp [hasPrefix, hc]

/-- The result of `ensureScheme` is never the empty string. -/
theorem ensureScheme_ne_empty (h : String) : ensureScheme h ≠ "" := by
  unfold ensureScheme
  split
  · rename_i hp
    intro hcon
    have hnil : trimRight h.data "/".data = [] := by
      have := congrArg String.data hcon
      simpa using this
    have hmem : 'h' ∈ h.data.reverse := by
      rw [List.mem_reverse]
      rcases Bool.or_eq_true _ _ ▸ hp with h1 | h1
      · obtain ⟨t, ht⟩ := (hasPrefix_iff _ _).1 h1
        rw [ht]
        exact List.mem_append_left _ (by decide)
      · obtain ⟨t, ht⟩ := (hasPrefix_iff _ _).1 h1
        rw [ht]
        exact List.mem_append_left _ (by decide)
    unfold trimRight at hnil
    rw [List.reverse_eq_nil_iff, List.dropWhile_eq_nil_iff] at hnil
    have := hnil 'h' hmem
    revert this
    decide
  · intro hcon
    have := congrArg String.data hcon
    simp at this

/-- C9, at the hosts that break it: a host that is only a scheme loses the
slashes of the scheme (`ensureScheme "http://"` is `"http:"`, which begins with
neither `"http://"` nor `"https://"`), and a host made of slashes normalizes
to the bare scheme `"https://"`, which ends with a slash. -/
theorem ensureScheme_degenerate_hosts :
    ensureScheme "http://" = "http:"
    ∧ hasPrefix (ensureScheme "http://").data "http://".data = false
    ∧ hasPrefix (ensureScheme "http://").data "https://".data = false
    ∧ ensureScheme "https://" = "https:"
    ∧ ensureScheme "/" = "https://"
    ∧ (ensureScheme "/").data.getLast? = some '/' := by
  decide

/-! ## Properties of `findMatchingItem` -/

/-- A range loop that ends without returning has seen no candidate pass its test. -/
theorem rangeFirst_eq_none (cond : Item → Bool) (l : List Item) :
    rangeFirst cond l = none ↔ ∀ c ∈ l, cond c = false := by
  induction l with
  | nil => simp [rangeFirst]
  | cons a l ih =>
    by_cases ha : cond a = true
    · simp [rangeFirst, ha]
    · simp [rangeFirst, ha, ih]

/-- A range loop over a list holding a candidate that passes the test returns
the first such candidate: everything before it fails the test. -/
theorem rangeFirst_first (cond : Item → Bool) (l : List Item)
    (h : ∃ c ∈ l, cond c = true) :
    ∃ pre c post, l = pre ++ c :: post ∧ (∀ x ∈ pre, cond x = false) ∧ cond c = true
      ∧ rangeFirst cond l = some c := by
  induction l with
  | nil => simp at h
  | cons a l ih =>
    by_cases ha : cond a = true
    · exact ⟨[], a, l, rfl, by simp, ha, by simp [rangeFirst, ha]⟩
    · have h2 : ∃ c ∈ l, cond c = true := by
        obtain ⟨c, hc, hcc⟩ := h
        rcases List.mem_cons.1 hc with rfl | hc
        · exact absurd hcc ha
        · exact ⟨c, hc, hcc⟩
      obtain ⟨pre, c, post, hl, hpre, hc, hr⟩ := ih h2
      refine ⟨a :: pre, c, post, by rw [hl]; rfl, ?_, hc, by simp [rangeFirst, ha, hr]⟩
      intro x hx
      rcases List.mem_cons.1 hx with rfl | hx
      · simpa using ha
      · exact hpre x hx

/-- What a range loop returns passes the test and is one of the candidates. -/
theorem rangeFirst_some (cond : Item → Bool) (l : List Item) (c : Item)
    (h : rangeFirst cond l = some c) : c ∈ l ∧ cond c = true := by
  induction l with
  | nil => simp [rangeFirst] at h
  | cons a l ih =>
    by_cases ha : cond a = true
    · simp [rangeFirst, ha] at h
      subst h
      exact ⟨List.mem_cons_self _ _, ha⟩
    · simp [rangeFirst, ha] at h
      exact ⟨List.mem_cons_of_mem _ (ih h).1, (ih h).2⟩

/-- The match returned by `findMatchingItem` is one of the candidates. -/
theorem findMatchingItem_mem (ef : String → String → Bool) (src : Item) (cands : List Item)
    (m : Item) (h : findMatchingItem ef src cands = some m) : m ∈ cands := by
  unfold findMatchingItem at h
  split at h
  · rename_i c hc
    cases h
    exact (rangeFirst_some _ _ _ hc).1
  · split at h
    · rename_i c hc
      cases h
      exact (rangeFirst_some _ _ _ hc).1
    · split at h
      · rename_i c hc
        cases h
        exact (rangeFirst_some _ _ _ hc).1
      · cases h

/-- C1: `findMatchingItem` applies the Id rule before the name rule and takes
the first hit in list order.  If some candidate has an Id equal to the source
Id under `strings.EqualFold`, the result is the first such candidate, whatever
the names and runtimes are; otherwise, if some candidate has exactly the
source name, the result is the first such candidate. -/
theorem findMatchingItem_id_then_name (ef : String → String → Bool) (src : Item)
    (cands : List Item) :
    ((∃ c ∈ cands, ef c.Id src.Id = true) →
      ∃ pre c post, cands = pre ++ c :: post ∧ (∀ x ∈ pre, ef x.Id src.Id = false)
        ∧ ef c.Id src.Id = true ∧ findMatchingItem ef src cands = some c)
    ∧ ((∀ c ∈ cands, ef c.Id src.Id = false) → (∃ c ∈ cands, c.Name = src.Name) →
      ∃ pre c post, cands = pre ++ c :: post ∧ (∀ x ∈ pre, x.Name ≠ src.Name)
        ∧ c.Name = src.Name ∧ findMatchingItem ef src cands = some c) := by
  constructor
  · intro h
    obtain ⟨pre, c, post, hl, hpre, hc, hr⟩ :=
      rangeFirst_first (fun c => ef c.Id src.Id) cands h
    exact ⟨pre, c, post, hl, hpre, hc, by simp [findMatchingItem, hr]⟩
  · intro hid hname
    have h1 : rangeFirst (fun c => ef c.Id src.Id) cands = none :=
      (rangeFirst_eq_none _ _).2 hid
    obtain ⟨pre, c, post, hl, hpre, hc, hr⟩ :=
      rangeFirst_first (fun c => decide (c.Name = src.Name)) cands
        (by obtain ⟨c, hc, hn⟩ := hname; exact ⟨c, hc, by simpa using hn⟩)
    refine ⟨pre, c, post, hl, ?_, by simpa using hc, by simp [findMatchingItem, h1, hr]⟩
    intro x hx
    simpa using hpre x hx

/-- C1 at the precedence example: the Id rule applies, and the match is the
second candidate although the first one has the name of the source. -/
theorem findMatchingItem_id_then_name_witness :
    (∃ c ∈ precedenceCands, asciiEqualFold c.Id precedenceSrc.Id = true)
    ∧ (∃ pre c post, precedenceCands = pre ++ c :: post
        ∧ (∀ x ∈ pre, asciiEqualFold x.Id precedenceSrc.Id = false)
        ∧ asciiEqualFold c.Id precedenceSrc.Id = true
        ∧ findMatchingItem asciiEqualFold precedenceSrc precedenceCands = some c)
    ∧ findMatchingItem asciiEqualFold precedenceSrc precedenceCands
        = some ⟨"Beta", "X", 1, none⟩ :=
  ⟨by decide,
   (findMatchingItem_id_then_name asciiEqualFold precedenceSrc precedenceCands).1 (by decide),
   by decide⟩

/-- C2: when no candidate matches by Id or by name, `findMatchingItem` returns
the first candidate with the runtime of the source, provided that runtime is
not zero and such a candidate exists, and returns nothing otherwise; a source
runtime of zero never matches, and an empty candidate list yields nothing. -/
theorem findMatchingItem_runtime_rule (ef : String → String → Bool) (src : Item)
    (cands : List Item) (hId : ∀ c ∈ cands, ef c.Id src.Id = false)
    (hName : ∀ c ∈ cands, c.Name ≠ src.Name) :
    ((src.RunTimeTicks ≠ 0 ∧ ∃ c ∈ cands, c.RunTimeTicks = src.RunTimeTicks) →
      ∃ pre c post, cands = pre ++ c :: post
        ∧ (∀ x ∈ pre, x.RunTimeTicks ≠ src.RunTimeTicks)
        ∧ c.RunTimeTicks = src.RunTimeTicks ∧ findMatchingItem ef src cands = some c)
    ∧ (¬ (src.RunTimeTicks ≠ 0 ∧ ∃ c ∈ cands, c.RunTimeTicks = src.RunTimeTicks) →
      findMatchingItem ef src cands = none)
    ∧ (src.RunTimeTicks = 0 → findMatchingItem ef src cands = none)
    ∧ findMatchingItem ef src [] = none := by
  have h1 : rangeFirst (fun c => ef c.Id src.Id) cands = none :=
    (rangeFirst_eq_none _ _).2 hId
  have h2 : rangeFirst (fun c => decide (c.Name = src.Name)) cands = none :=
    (rangeFirst_eq_none _ _).2 (by intro c hc; simpa using hName c hc)
  have hnone : ¬ (src.RunTimeTicks ≠ 0 ∧ ∃ c ∈ cands, c.RunTimeTicks = src.RunTimeTicks) →
      findMatchingItem ef src cands = none := by
    intro hno
    have h3 : rangeFirst (fun c => decide (src.RunTimeTicks ≠ 0)
        && decide (src.RunTimeTicks = c.RunTimeTicks)) cands = none := by
      rw [rangeFirst_eq_none]
      intro c hc
      by_contra hcon
      simp only [Bool.not_eq_false, Bool.and_eq_true, decide_eq_true_eq] at hcon
      exact hno ⟨hcon.1, c, hc, hcon.2.symm⟩
    simp only [findMatchingItem, h1, h2, h3]
  refine ⟨?_, hnone, ?_, by simp [findMatchingItem, rangeFirst]⟩
  · rintro ⟨hnz, c, hc, hrt⟩
    obtain ⟨pre, c, post, hl, hpre, hc, hr⟩ :=
      rangeFirst_first (fun c => decide (src.RunTimeTicks ≠ 0)
        && decide (src.RunTimeTicks = c.RunTimeTicks)) cands
        ⟨c, hc, by simp [hnz, hrt]⟩
    simp only [Bool.and_eq_true, decide_eq_true_eq] at hc
    refine ⟨pre, c, post, hl, ?_, hc.2.symm, by simp only [findMatchingItem, h1, h2, hr]⟩
    intro x hx hxe
    have := hpre x hx
    simp [hnz, hxe] at this
  · intro hz
    exact hnone (fun h => h.1 hz)

/-- C2 at the zero-runtime example: nothing is matched although a candidate
also has runtime zero. -/
theorem findMatchingItem_runtime_rule_witness :
    (∀ c ∈ zeroRuntimeCands, asciiEqualFold c.Id zeroRuntimeSrc.Id = false)
    ∧ (∀ c ∈ zeroRuntimeCands, c.Name ≠ zeroRuntimeSrc.Name)
    ∧ findMatchingItem asciiEqualFold zeroRuntimeSrc zeroRuntimeCands = none :=
  ⟨by decide, by decide,
   (findMatchingItem_runtime_rule asciiEqualFold zeroRuntimeSrc zeroRuntimeCands
      (by decide) (by decide)).2.2.1 rfl⟩

/-! ## Properties of `fetchPlayedItems` -/

/-- The inner loop of a page appends the played items of the page. -/
theorem retainPlayed_eq (results items : List Item) :
    retainPlayed results items = results ++ items.filter isPlayed := by
  induction items generalizing results with
  | nil => simp [retainPlayed]
  | cons it rest ih =>
    by_cases h : isPlayed it = true
    · simp [retainPlayed, h, ih]
    · simp [retainPlayed, h, ih]

/-- The played test in the words of the data model: `UserData` is present and
`Played` is set or `PlayCount` is positive. -/
theorem isPlayed_iff (it : Item) :
    isPlayed it = true ↔
      ∃ ud, it.UserData = some ud ∧ (ud.Played = true ∨ 0 < ud.PlayCount) := by
  unfold isPlayed
  cases h : it.UserData with
  | none => simp
  | some ud => simp

/-- A discovery loop that returns items has received a `Listing` from the
servers, and returns the played items of its pages after `results`. -/
theorem fetchLoop_ok {σ β : Type} (E : Env σ β) (cfg : ServerConfig) (host : String)
    (fuel : Nat) (s : σ) (start : Int) (results : List Item)
    (r : Run σ β (Except (GoError β) (List Item))) (items : List Item)
    (h : fetchLoop E cfg host fuel s start results = some r) (hr : r.ret = .ok items) :
    ∃ pages, Listing E cfg host s start pages r.state
      ∧ items = results ++ pages.flatten.filter isPlayed := by
  induction fuel generalizing s start results r with
  | zero => simp [fetchLoop] at h
  | succ fuel ih =>
    unfold fetchLoop at h
    simp only at h
    cases hreq : E.NewRequest (Request.listItems host cfg.UserID cfg.Token 100 start) with
    | some err =>
      rw [hreq] at h
      simp only [Option.some.injEq] at h
      subst h
      simp at hr
    | none =>
      rw [hreq] at h
      simp only at h
      rcases hdo : E.Do s (Request.listItems host cfg.UserID cfg.Token 100 start) with ⟨s1, res⟩
      rw [hdo] at h
      cases res with
      | error err =>
        simp only [Option.some.injEq] at h
        subst h
        simp at hr
      | ok resp =>
        simp only at h
        by_cases hbad : badStatus resp = true
        · rw [if_pos hbad] at h
          simp only [Option.some.injEq] at h
          subst h
          simp at hr
        · rw [if_neg hbad] at h
          cases hdec : E.Unmarshal resp.Body with
          | error err =>
            rw [hdec] at h
            simp only [Option.some.injEq] at h
            subst h
            simp at hr
          | ok ir =>
            rw [hdec] at h
            simp only at h
            by_cases hlen : ir.Items.length < 100
            · rw [if_pos hlen] at h
              simp only [Option.some.injEq] at h
              subst h
              simp only [Except.ok.injEq] at hr
              refine ⟨[ir.Items], Listing.last s s1 start resp ir hreq hdo (by simpa using hbad)
                hdec hlen, ?_⟩
              rw [← hr, retainPlayed_eq]
              simp
            · rw [if_neg hlen] at h
              cases hrec : fetchLoop E cfg host fuel s1 (start + 100)
                  (retainPlayed results ir.Items) with
              | none => rw [hrec] at h; simp at h
              | some r2 =>
                rw [hrec] at h
                simp only [Option.some.injEq] at h
                subst h
                obtain ⟨pages, hl, hit⟩ := ih s1 (start + 100) _ r2 hrec hr
                refine ⟨ir.Items :: pages, Listing.more s s1 r2.state start resp ir pages hreq hdo
                  (by simpa using hbad) hdec (by omega) hl, ?_⟩
                rw [hit, retainPlayed_eq]
                simp

/-- A `Listing` makes the discovery loop end, given one unit of fuel per page:
the loop performs one listing request per page, `100` apart, leaves the servers
in the final state of the listing and returns the played items of the pages. -/
theorem fetchLoop_of_listing {σ β : Type} (E : Env σ β) (cfg : ServerConfig) (host : String)
    (s s1 : σ) (start : Int) (pages : List (List Item))
    (hl : Listing E cfg host s start pages s1) (fuel : Nat) (hfuel : pages.length ≤ fuel)
    (results : List Item) :
    ∃ log, fetchLoop E cfg host fuel s start results
        = some ⟨s1, log, .ok (results ++ pages.flatten.filter isPlayed)⟩
      ∧ log.map (fun e => e.req) = (List.range pages.length).map
          (fun (i : Nat) => Request.listItems host cfg.UserID cfg.Token 100 (start + 100 * (i : Int))) := by
  induction hl generalizing fuel results with
  | last s s1 start resp ir hreq hdo hstatus hdec hlen =>
    cases fuel with
    | zero => simp at hfuel
    | succ fuel =>
      refine ⟨[⟨Request.listItems host cfg.UserID cfg.Token 100 start, .ok resp⟩], ?_,
        by simp [List.range_succ]⟩
      unfold fetchLoop
      simp only [hreq, hdo, hstatus, hdec, if_pos hlen, retainPlayed_eq]
      simp
  | more s s1 s2 start resp ir pages hreq hdo hstatus hdec hlen hrest ih =>
    cases fuel with
    | zero => simp at hfuel
    | succ fuel =>
      obtain ⟨log, hrun, hlog⟩ := ih fuel (by simpa using hfuel) (retainPlayed results ir.Items)
      refine ⟨⟨Request.listItems host cfg.UserID cfg.Token 100 start, .ok resp⟩ :: log, ?_, ?_⟩
      · unfold fetchLoop
        simp only [hreq, hdo, hstatus, hdec, if_neg (show ¬ ir.Items.length < 100 by omega), hrun]
        simp [retainPlayed_eq]
      · rw [List.map_cons, hlog, List.length_cons, List.range_succ_eq_map]
        simp only [List.map_cons, List.map_map]
        congr 1
        · simp
        · apply List.map_congr_left
          intro i _
          simp only [Function.comp]
          congr 1
          push_cast
          ring

/-- Every exchange of the discovery loop is a listing request. -/
theorem fetchLoop_log {σ β : Type} (E : Env σ β) (cfg : ServerConfig) (host : String)
    (fuel : Nat) (s : σ) (start : Int) (results : List Item)
    (r : Run σ β (Except (GoError β) (List Item)))
    (h : fetchLoop E cfg host fuel s start results = some r) :
    ∀ e ∈ r.log, ∃ st, e.req = Request.listItems host cfg.UserID cfg.Token 100 st := by
  induction fuel generalizing s start results r with
  | zero => simp [fetchLoop] at h
  | succ fuel ih =>
    unfold fetchLoop at h
    simp only at h
    split at h
    · simp only [Option.some.injEq] at h
      subst h
      simp
    · split at h
      · simp only [Option.some.injEq] at h
        subst h
        simp
      · split at h
        · simp only [Option.some.injEq] at h
          subst h
          simp
        · split at h
          · simp only [Option.some.injEq] at h
            subst h
            simp
          · split at h
            · simp only [Option.some.injEq] at h
              subst h
              simp
            · split at h
              · simp at h
              · rename_i r2 hrec
                simp only [Option.some.injEq] at h
                subst h
                intro e he
                rcases List.mem_cons.1 he with rfl | he
                · exact ⟨start, rfl⟩
                · exact ih _ _ _ _ hrec e he

/-- C3: every item returned by a successful `fetchPlayedItems` has `UserData`
and has `Played` set or a positive `PlayCount`; and of the pages the servers
listed, every item with `UserData` and with at least one of the two signals is
among the returned items. -/
theorem fetchPlayedItems_played {σ β : Type} (E : Env σ β) (cfg : ServerConfig) (fuel : Nat)
    (s : σ) (r : Run σ β (Except (GoError β) (List Item))) (items : List Item)
    (h : fetchPlayedItems E cfg fuel s = some r) (hr : r.ret = .ok items) :
    (∀ it ∈ items, it.UserData ≠ none)
    ∧ (∀ it ∈ items, ∃ ud, it.UserData = some ud ∧ (ud.Played = true ∨ 0 < ud.PlayCount))
    ∧ ∃ pages, Listing E cfg (ensureScheme cfg.Host) s 0 pages r.state
        ∧ ∀ p ∈ pages, ∀ it ∈ p, ∀ ud, it.UserData = some ud →
            (ud.Played = true ∨ 0 < ud.PlayCount) → it ∈ items := by
  obtain ⟨pages, hl, hit⟩ := fetchLoop_ok E cfg _ fuel s 0 [] r items h hr
  simp only [List.nil_append] at hit
  have hall : ∀ it ∈ items, ∃ ud, it.UserData = some ud
      ∧ (ud.Played = true ∨ 0 < ud.PlayCount) := by
    intro it hi
    rw [hit, List.mem_filter] at hi
    exact (isPlayed_iff it).1 hi.2
  refine ⟨?_, hall, pages, hl, ?_⟩
  · intro it hi hn
    obtain ⟨ud, hud, _⟩ := hall it hi
    rw [hn] at hud
    cases hud
  · intro p hp it hip ud hud hsig
    rw [hit, List.mem_filter]
    exact ⟨List.mem_flatten.2 ⟨p, hp, hip⟩, (isPlayed_iff it).2 ⟨ud, hud, hsig⟩⟩

/-- C3 on a server with one short page holding the four kinds of item: the
two items with one signal each are returned, the other two are not. -/
theorem fetchPlayedItems_played_witness :
    fetchPlayedItems (scriptEnv (fun _ => okItems [seenItem, unseenItem, countedItem, bareItem]))
        cfgA 1 ()
      = some ⟨(), [⟨Request.listItems "https://a.example.org" "ua" "ta" 100 0,
            okItems [seenItem, unseenItem, countedItem, bareItem]⟩],
          .ok [seenItem, countedItem]⟩
    ∧ ((∀ it ∈ [seenItem, countedItem], it.UserData ≠ none)
      ∧ (∀ it ∈ [seenItem, countedItem],
          ∃ ud, it.UserData = some ud ∧ (ud.Played = true ∨ 0 < ud.PlayCount))
      ∧ ∃ pages, Listing (scriptEnv (fun _ => okItems [seenItem, unseenItem, countedItem, bareItem]))
            cfgA (ensureScheme cfgA.Host) () 0 pages ()
          ∧ ∀ p ∈ pages, ∀ it ∈ p, ∀ ud, it.UserData = some ud →
              (ud.Played = true ∨ 0 < ud.PlayCount) → it ∈ [seenItem, countedItem]) :=
  ⟨rfl, fetchPlayedItems_played _ cfgA 1 () _ [seenItem, countedItem] rfl rfl⟩

/-- C4: when the servers answer the listing requests with `n` pages of at
least 100 items (exactly 100 in particular) followed by a page of fewer than
100 items, all requests succeeding, `fetchPlayedItems` with one unit of fuel
per page returns: it has performed exactly `n + 1` exchanges, the listing
requests with `Limit` 100 and `StartIndex` 0, 100, ..., `100 * n` in that
order, and its result is the played items of the pages, in page order.  The
fields `TotalRecordCount` and `StartIndex` of the answers play no part. -/
theorem fetchPlayedItems_pagination {σ β : Type} (E : Env σ β) (cfg : ServerConfig)
    (s s1 : σ) (full : List (List Item)) (short : List Item)
    (hl : Listing E cfg (ensureScheme cfg.Host) s 0 (full ++ [short]) s1)
    (fuel : Nat) (hfuel : full.length + 1 ≤ fuel) :
    ∃ log, fetchPlayedItems E cfg fuel s
        = some ⟨s1, log, .ok ((full ++ [short]).flatten.filter isPlayed)⟩
      ∧ log.length = full.length + 1
      ∧ log.map (fun e => e.req) = (List.range (full.length + 1)).map
          (fun (i : Nat) =>
            Request.listItems (ensureScheme cfg.Host) cfg.UserID cfg.Token 100 (100 * (i : Int))) := by
  obtain ⟨log, hrun, hlog⟩ :=
    fetchLoop_of_listing E cfg _ s s1 0 (full ++ [short]) hl fuel (by simpa using hfuel) []
  simp only [List.nil_append, zero_add, List.length_append, List.length_singleton] at hrun hlog
  refine ⟨log, hrun, ?_, hlog⟩
  have := congrArg List.length hlog
  simpa using this

/-- The two pages of `twoPageServer` are a `Listing`. -/
theorem twoPageServer_listing :
    Listing twoPageServer cfgA (ensureScheme cfgA.Host) () 0 ([fullPage] ++ [shortPage]) () :=
  Listing.more () () () 0 (⟨200, "200 OK", ⟨fullPage, 7, 0⟩⟩ : HttpResponse ItemsResponse)
    ⟨fullPage, 7, 0⟩ [shortPage] rfl rfl (by decide) rfl (by decide)
    (Listing.last () () (0 + 100)
      (⟨200, "200 OK", ⟨shortPage, 7, 0⟩⟩ : HttpResponse ItemsResponse) ⟨shortPage, 7, 0⟩
      rfl rfl (by decide) rfl (by decide))

/-- C4 on `twoPageServer`: one full page, then a short one. -/
theorem fetchPlayedItems_pagination_witness :
    ∃ log, fetchPlayedItems twoPageServer cfgA 2 ()
        = some ⟨(), log, .ok (([fullPage] ++ [shortPage]).flatten.filter isPlayed)⟩
      ∧ log.length = [fullPage].length + 1
      ∧ log.map (fun e => e.req) = (List.range ([fullPage].length + 1)).map
          (fun (i : Nat) =>
            Request.listItems (ensureScheme cfgA.Host) cfgA.UserID cfgA.Token 100 (100 * (i : Int))) :=
  fetchPlayedItems_pagination twoPageServer cfgA () () [fullPage] shortPage
    twoPageServer_listing 2 (by decide)

/-! ## Properties of `searchItems` and `markPlayed` -/

/-- Every exchange of `searchItems` is its search request. -/
theorem searchItems_log {σ β : Type} (E : Env σ β) (cfg : ServerConfig) (term : String) (s : σ) :
    ∀ e ∈ (searchItems E cfg term s).log,
      e.req = Request.searchItems (ensureScheme cfg.Host) cfg.UserID cfg.Token term := by
  unfold searchItems
  simp only
  split
  · simp
  · split
    · simp
    · split
      · simp
      · split <;> simp

/-- A successful `searchItems` performed exactly one exchange: its request was
answered with a 2xx response whose body decodes to the candidates. -/
theorem searchItems_ok {σ β : Type} (E : Env σ β) (cfg : ServerConfig) (term : String) (s : σ)
    (cands : List Item) (h : (searchItems E cfg term s).ret = .ok cands) :
    ∃ resp ir, (searchItems E cfg term s).log
        = [⟨Request.searchItems (ensureScheme cfg.Host) cfg.UserID cfg.Token term, .ok resp⟩]
      ∧ badStatus resp = false ∧ E.Unmarshal resp.Body = .ok ir ∧ ir.Items = cands := by
  unfold searchItems at h ⊢
  simp only at h ⊢
  split at h
  · simp at h
  · split at h
    · simp at h
    · rename_i s1 resp hdo
      split at h
      · simp at h
      · rename_i hbad
        split at h
        · simp at h
        · rename_i ir hdec
          simp only [Except.ok.injEq] at h
          refine ⟨resp, ir, ?_, by simpa using hbad, hdec, h⟩
          simp [hdo, hbad, hdec]

/-- The server state after `searchItems` is the one after its request, if it
was sent. -/
theorem searchItems_state {σ β : Type} (E : Env σ β) (cfg : ServerConfig) (term : String) (s : σ)
    (hro : ∀ s0 req, isMarkRequest req = false → (E.Do s0 req).1 = s0) :
    (searchItems E cfg term s).state = s := by
  have h := hro s (Request.searchItems (ensureScheme cfg.Host) cfg.UserID cfg.Token term) rfl
  unfold searchItems
  simp only
  split
  · rfl
  · split
    · rename_i hdo
      rw [hdo] at h
      exact h
    · rename_i hdo
      rw [hdo] at h
      split
      · exact h
      · split <;> exact h

/-- No exchange of `searchItems` is a mark-played request. -/
theorem searchItems_no_mark {σ β : Type} (E : Env σ β) (cfg : ServerConfig) (term : String)
    (s : σ) : ∀ e ∈ (searchItems E cfg term s).log, isMarkRequest e.req = false := by
  intro e he
  rw [searchItems_log E cfg term s e he]
  rfl

/-- The log of `markPlayed`: at most its own request, and an accepted
mark-played request exactly when no error is returned. -/
theorem markPlayed_log {σ β : Type} (E : Env σ β) (cfg : ServerConfig) (itemId : String) (s : σ) :
    (∀ e ∈ (markPlayed E cfg itemId s).log,
      e.req = Request.markPlayed (ensureScheme cfg.Host) cfg.UserID cfg.Token itemId)
    ∧ (markPlayed E cfg itemId s).log.length ≤ 1
    ∧ ((markPlayed E cfg itemId s).log.countP markSucceeded
        = if (markPlayed E cfg itemId s).ret.isNone then 1 else 0) := by
  cases hreq : E.NewRequest
      (Request.markPlayed (ensureScheme cfg.Host) cfg.UserID cfg.Token itemId) with
  | some err => simp [markPlayed, hreq]
  | none =>
    rcases hdo : E.Do s
      (Request.markPlayed (ensureScheme cfg.Host) cfg.UserID cfg.Token itemId) with ⟨s1, res⟩
    cases res with
    | error err => simp [markPlayed, hreq, hdo, markSucceeded]
    | ok resp =>
      by_cases hbad : badStatus resp = true
      · simp [markPlayed, hreq, hdo, hbad, markSucceeded]
      · simp [markPlayed, hreq, hdo, hbad, markSucceeded]

/-! ## Properties of the loop of `syncDirection` -/

/-- The loop over `pre ++ post` is the loop over `pre` followed by the loop
over `post`, which starts from the state and the counter the first one left. -/
theorem syncLoop_append {σ β : Type} (E : Env σ β) (toCfg : ServerConfig) (dryRun : Bool)
    (pre post : List Item) (s : σ) (marked : Int) :
    syncLoop E toCfg dryRun (pre ++ post) s marked
      = ⟨(syncLoop E toCfg dryRun post (syncLoop E toCfg dryRun pre s marked).state
            (syncLoop E toCfg dryRun pre s marked).ret).state,
         (syncLoop E toCfg dryRun pre s marked).log
           ++ (syncLoop E toCfg dryRun post (syncLoop E toCfg dryRun pre s marked).state
                (syncLoop E toCfg dryRun pre s marked).ret).log,
         (syncLoop E toCfg dryRun post (syncLoop E toCfg dryRun pre s marked).state
            (syncLoop E toCfg dryRun pre s marked).ret).ret⟩ := by
  induction pre generalizing s marked with
  | nil => simp [syncLoop]
  | cons it pre ih =>
    rw [List.cons_append]
    simp only [syncLoop]
    rw [ih]
    simp only [List.append_assoc]

/-- An iteration whose search fails, finds no match, or finds a match that is
already played performs the search and leaves the counter as it was. -/
theorem syncItem_skip {σ β : Type} (E : Env σ β) (toCfg : ServerConfig) (dryRun : Bool)
    (it : Item) (s : σ) (marked : Int)
    (h : (∃ err, (searchItems E toCfg it.Name s).ret = .error err)
      ∨ (∃ cands, (searchItems E toCfg it.Name s).ret = .ok cands
          ∧ (findMatchingItem E.EqualFold it cands = none
            ∨ ∃ m, findMatchingItem E.EqualFold it cands = some m ∧ isPlayed m = true))) :
    syncItem E toCfg dryRun it s marked
      = ⟨(searchItems E toCfg it.Name s).state, (searchItems E toCfg it.Name s).log, marked⟩ := by
  unfold syncItem
  rcases h with ⟨err, he⟩ | ⟨cands, hc, hn | ⟨m, hm, hp⟩⟩
  · simp only [he]
  · simp only [hc, hn]
  · simp only [hc, hm, hp, if_true]

/-- The counter of a loop started at `marked` is `marked` plus the counter of
the same loop started at zero; state and log do not depend on the counter. -/
theorem syncLoop_counter {σ β : Type} (E : Env σ β) (toCfg : ServerConfig) (dryRun : Bool)
    (played : List Item) (s : σ) (marked : Int) :
    (syncLoop E toCfg dryRun played s marked).state = (syncLoop E toCfg dryRun played s 0).state
    ∧ (syncLoop E toCfg dryRun played s marked).log = (syncLoop E toCfg dryRun played s 0).log
    ∧ (syncLoop E toCfg dryRun played s marked).ret
        = marked + (syncLoop E toCfg dryRun played s 0).ret := by
  have key : ∀ (it : Item) (s : σ) (k : Int),
      (syncItem E toCfg dryRun it s k).state = (syncItem E toCfg dryRun it s 0).state
      ∧ (syncItem E toCfg dryRun it s k).log = (syncItem E toCfg dryRun it s 0).log
      ∧ (syncItem E toCfg dryRun it s k).ret = k + (syncItem E toCfg dryRun it s 0).ret := by
    intro it s k
    unfold syncItem
    simp only
    split
    · simp
    · split
      · simp
      · split
        · simp
        · split
          · simp
          · split <;> simp
  induction played generalizing s marked with
  | nil => simp [syncLoop]
  | cons it rest ih =>
    simp only [syncLoop]
    obtain ⟨k1, k2, k3⟩ := key it s marked
    rw [k1, k2, k3]
    obtain ⟨a1, a2, a3⟩ := ih (syncItem E toCfg dryRun it s 0).state
      (marked + (syncItem E toCfg dryRun it s 0).ret)
    obtain ⟨b1, b2, b3⟩ := ih (syncItem E toCfg dryRun it s 0).state
      (syncItem E toCfg dryRun it s 0).ret
    refine ⟨by rw [a1, b1], by rw [a2, b2], ?_⟩
    rw [a3, b3]
    ring

/-- An iteration in simulation mode performs the search only, and adds one to
the counter exactly when the answer is actionable. -/
theorem syncItem_dryRun {σ β : Type} (E : Env σ β) (toCfg : ServerConfig)
    (it : Item) (s : σ) (marked : Int) :
    syncItem E toCfg true it s marked
      = ⟨(searchItems E toCfg it.Name s).state, (searchItems E toCfg it.Name s).log,
         marked + if actionable E.EqualFold (it, (searchItems E toCfg it.Name s).ret) then 1 else 0⟩ := by
  cases hsr : (searchItems E toCfg it.Name s).ret with
  | error err => simp [syncItem, actionable, hsr]
  | ok cands =>
    cases hfm : findMatchingItem E.EqualFold it cands with
    | none => simp [syncItem, actionable, hsr, hfm]
    | some m =>
      by_cases hp : isPlayed m = true
      · simp [syncItem, actionable, hsr, hfm, hp]
      · simp [syncItem, actionable, hsr, hfm, hp]

/-- A loop in simulation mode: no mark-played request, and the counter grows
by the number of actionable search answers. -/
theorem syncLoop_dryRun {σ β : Type} (E : Env σ β) (toCfg : ServerConfig)
    (played : List Item) (s : σ) (marked : Int) :
    (∀ e ∈ (syncLoop E toCfg true played s marked).log, isMarkRequest e.req = false)
    ∧ (syncLoop E toCfg true played s marked).ret
        = marked + ((searchAnswers E toCfg played s).countP (actionable E.EqualFold) : Nat)
    ∧ ((∀ s0 req, isMarkRequest req = false → (E.Do s0 req).1 = s0) →
        (syncLoop E toCfg true played s marked).state = s) := by
  induction played generalizing s marked with
  | nil => simp [syncLoop, searchAnswers]
  | cons it rest ih =>
    simp only [syncLoop, syncItem_dryRun, searchAnswers, List.countP_cons]
    obtain ⟨h1, h2, h3⟩ := ih (searchItems E toCfg it.Name s).state
      (marked + if actionable E.EqualFold (it, (searchItems E toCfg it.Name s).ret) then 1 else 0)
    refine ⟨?_, ?_, ?_⟩
    · intro e he
      rcases List.mem_append.1 he with he | he
      · exact searchItems_no_mark E toCfg it.Name s e he
      · exact h1 e he
    · rw [h2]
      by_cases ha : actionable E.EqualFold (it, (searchItems E toCfg it.Name s).ret) = true
      · simp [ha]; ring
      · simp [ha]
    · intro hro
      rw [h3 hro, searchItems_state E toCfg it.Name s hro]

/-- An iteration that writes: the counter grows by the number of accepted
mark-played requests among its exchanges. -/
theorem syncItem_count {σ β : Type} (E : Env σ β) (toCfg : ServerConfig)
    (it : Item) (s : σ) (marked : Int) :
    (syncItem E toCfg false it s marked).ret
      = marked + ((syncItem E toCfg false it s marked).log.countP markSucceeded : Nat) := by
  have hs : (searchItems E toCfg it.Name s).log.countP markSucceeded = 0 := by
    rw [List.countP_eq_zero]
    intro e he
    have := searchItems_log E toCfg it.Name s e he
    simp [markSucceeded, this]
  cases hsr : (searchItems E toCfg it.Name s).ret with
  | error err => simp [syncItem, hsr, hs]
  | ok cands =>
    cases hfm : findMatchingItem E.EqualFold it cands with
    | none => simp [syncItem, hsr, hfm, hs]
    | some m =>
      by_cases hp : isPlayed m = true
      · simp [syncItem, hsr, hfm, hp, hs]
      · have hm := (markPlayed_log E toCfg m.Id (searchItems E toCfg it.Name s).state).2.2
        cases hmr : (markPlayed E toCfg m.Id (searchItems E toCfg it.Name s).state).ret with
        | some e =>
          rw [hmr] at hm
          simp [syncItem, hsr, hfm, hp, hmr, List.countP_append, hs, hm]
        | none =>
          rw [hmr] at hm
          simp [syncItem, hsr, hfm, hp, hmr, List.countP_append, hs, hm]

/-- A loop that writes: the counter grows by the number of accepted
mark-played requests among its exchanges. -/
theorem syncLoop_count {σ β : Type} (E : Env σ β) (toCfg : ServerConfig)
    (played : List Item) (s : σ) (marked : Int) :
    (syncLoop E toCfg false played s marked).ret
      = marked + ((syncLoop E toCfg false played s marked).log.countP markSucceeded : Nat) := by
  induction played generalizing s marked with
  | nil => simp [syncLoop]
  | cons it rest ih =>
    simp only [syncLoop, List.countP_append]
    rw [ih, syncItem_count]
    push_cast
    ring

/-- The pass over `pre ++ it :: post`, cut at the iteration of `it`. -/
theorem syncDirection_split {σ β : Type} (E : Env σ β) (fromCfg toCfg : ServerConfig)
    (dryRun : Bool) (fuel : Nat) (s : σ) (f : Run σ β (Except (GoError β) (List Item)))
    (pre : List Item) (it : Item) (post : List Item)
    (hf : fetchPlayedItems E fromCfg fuel s = some f) (hp : f.ret = .ok (pre ++ it :: post)) :
    syncDirection E fromCfg toCfg dryRun fuel s
      = some ⟨(syncLoop E toCfg dryRun post
            (syncItem E toCfg dryRun it (syncLoop E toCfg dryRun pre f.state 0).state
              (syncLoop E toCfg dryRun pre f.state 0).ret).state
            (syncItem E toCfg dryRun it (syncLoop E toCfg dryRun pre f.state 0).state
              (syncLoop E toCfg dryRun pre f.state 0).ret).ret).state,
          f.log ++ ((syncLoop E toCfg dryRun pre f.state 0).log
            ++ ((syncItem E toCfg dryRun it (syncLoop E toCfg dryRun pre f.state 0).state
                (syncLoop E toCfg dryRun pre f.state 0).ret).log
              ++ (syncLoop E toCfg dryRun post
                (syncItem E toCfg dryRun it (syncLoop E toCfg dryRun pre f.state 0).state
                  (syncLoop E toCfg dryRun pre f.state 0).ret).state
                (syncItem E toCfg dryRun it (syncLoop E toCfg dryRun pre f.state 0).state
                  (syncLoop E toCfg dryRun pre f.state 0).ret).ret).log)),
          ((syncLoop E toCfg dryRun post
            (syncItem E toCfg dryRun it (syncLoop E toCfg dryRun pre f.state 0).state
              (syncLoop E toCfg dryRun pre f.state 0).ret).state
            (syncItem E toCfg dryRun it (syncLoop E toCfg dryRun pre f.state 0).state
              (syncLoop E toCfg dryRun pre f.state 0).ret).ret).ret, none)⟩ := by
  unfold syncDirection
  rw [hf]
  simp only [hp]
  rw [if_neg (by simp)]
  rw [syncLoop_append]
  simp only [syncLoop]

/-- When only mark-played requests change the servers, discovery leaves them
as they were. -/
theorem fetchLoop_state {σ β : Type} (E : Env σ β) (cfg : ServerConfig) (host : String)
    (hro : ∀ s0 req, isMarkRequest req = false → (E.Do s0 req).1 = s0)
    (fuel : Nat) (s : σ) (start : Int) (results : List Item)
    (r : Run σ β (Except (GoError β) (List Item)))
    (h : fetchLoop E cfg host fuel s start results = some r) : r.state = s := by
  induction fuel generalizing s start results r with
  | zero => simp [fetchLoop] at h
  | succ fuel ih =>
    have hs := hro s (Request.listItems host cfg.UserID cfg.Token 100 start) rfl
    unfold fetchLoop at h
    simp only at h
    cases hreq : E.NewRequest (Request.listItems host cfg.UserID cfg.Token 100 start) with
    | some err =>
      rw [hreq] at h
      simp only [Option.some.injEq] at h
      subst h
      rfl
    | none =>
      rw [hreq] at h
      simp only at h
      rcases hdo : E.Do s (Request.listItems host cfg.UserID cfg.Token 100 start) with ⟨s1, res⟩
      rw [hdo] at h hs
      simp only at hs
      subst hs
      cases res with
      | error err =>
        simp only [Option.some.injEq] at h
        subst h
        rfl
      | ok resp =>
        simp only at h
        split at h
        · simp only [Option.some.injEq] at h
          subst h
          rfl
        · split at h
          · simp only [Option.some.injEq] at h
            subst h
            rfl
          · split at h
            · simp only [Option.some.injEq] at h
              subst h
              rfl
            · split at h
              · simp at h
              · rename_i r2 hrec
                simp only [Option.some.injEq] at h
                subst h
                exact ih _ _ _ r2 hrec

/-- A log without mark-played requests has nothing to justify. -/
theorem marksFollowSearch_of_no_mark {σ β : Type} (E : Env σ β) (toCfg : ServerConfig)
    (played : List Item) (log : List (Exchange β))
    (h : ∀ e ∈ log, isMarkRequest e.req = false) : MarksFollowSearch E toCfg played log := by
  intro l1 e l2 hlog hmark
  have := h e (by rw [hlog]; simp)
  rw [this] at hmark
  cases hmark

/-- Justified logs can be put one after the other. -/
theorem marksFollowSearch_append {σ β : Type} (E : Env σ β) (toCfg : ServerConfig)
    (played : List Item) (a b : List (Exchange β))
    (ha : MarksFollowSearch E toCfg played a) (hb : MarksFollowSearch E toCfg played b) :
    MarksFollowSearch E toCfg played (a ++ b) := by
  intro l1 e l2 hlog hmark
  rcases List.append_eq_append_iff.1 hlog with ⟨a1, h1, h2⟩ | ⟨c1, h1, h2⟩
  · obtain ⟨l0, e1, hl, hj⟩ := hb a1 e l2 h2 hmark
    exact ⟨a ++ l0, e1, by rw [h1, hl, List.append_assoc], hj⟩
  · rcases List.cons_eq_append_iff.1 h2 with ⟨hc, hb2⟩ | ⟨c2, hc, _⟩
    · obtain ⟨l0, e1, hl, _⟩ := hb [] e l2 (by simpa using hb2) hmark
      simp at hl
    · exact ha l1 e c2 (by rw [h1, hc]) hmark

/-- A log justified for some played items is justified for more of them. -/
theorem marksFollowSearch_mono {σ β : Type} (E : Env σ β) (toCfg : ServerConfig)
    (p1 p2 : List Item) (log : List (Exchange β)) (hsub : ∀ it ∈ p1, it ∈ p2)
    (h : MarksFollowSearch E toCfg p1 log) : MarksFollowSearch E toCfg p2 log := by
  intro l1 e l2 hlog hmark
  obtain ⟨l0, e1, hl, it, resp, ir, m, hit, rest⟩ := h l1 e l2 hlog hmark
  exact ⟨l0, e1, hl, it, resp, ir, m, hsub it hit, rest⟩

/-- The exchanges of one iteration: a mark-played request comes right after
the search that justifies it, and there is none in simulation mode. -/
theorem syncItem_marks {σ β : Type} (E : Env σ β) (toCfg : ServerConfig) (dryRun : Bool)
    (it : Item) (s : σ) (marked : Int) :
    MarksFollowSearch E toCfg [it] (syncItem E toCfg dryRun it s marked).log
    ∧ (dryRun = true → ∀ e ∈ (syncItem E toCfg dryRun it s marked).log,
        isMarkRequest e.req = false) := by
  have hsearch := searchItems_no_mark E toCfg it.Name s
  cases hsr : (searchItems E toCfg it.Name s).ret with
  | error err =>
    simp only [syncItem, hsr]
    exact ⟨marksFollowSearch_of_no_mark E toCfg _ _ hsearch, fun _ => hsearch⟩
  | ok cands =>
    cases hfm : findMatchingItem E.EqualFold it cands with
    | none =>
      simp only [syncItem, hsr, hfm]
      exact ⟨marksFollowSearch_of_no_mark E toCfg _ _ hsearch, fun _ => hsearch⟩
    | some m =>
      by_cases hp : isPlayed m = true
      · simp only [syncItem, hsr, hfm, hp, if_true]
        exact ⟨marksFollowSearch_of_no_mark E toCfg _ _ hsearch, fun _ => hsearch⟩
      · cases dryRun with
        | true =>
          simp only [syncItem, hsr, hfm, hp, if_true, if_false, Bool.false_eq_true]
          exact ⟨marksFollowSearch_of_no_mark E toCfg _ _ hsearch, fun _ => hsearch⟩
        | false =>
          obtain ⟨resp, ir, hlog, hbad, hdec, hitems⟩ := searchItems_ok E toCfg it.Name s cands hsr
          obtain ⟨hreq, hlen, _⟩ :=
            markPlayed_log E toCfg m.Id (searchItems E toCfg it.Name s).state
          have hlogs : (syncItem E toCfg false it s marked).log
              = (searchItems E toCfg it.Name s).log
                ++ (markPlayed E toCfg m.Id (searchItems E toCfg it.Name s).state).log := by
            simp only [syncItem, hsr, hfm, hp, if_false, Bool.false_eq_true]
            split <;> rfl
          refine ⟨?_, fun h => by cases h⟩
          rw [hlogs, hlog]
          intro l1 e l2 hl hmark
          rw [List.singleton_append] at hl
          rcases List.cons_eq_append_iff.1 hl with ⟨h1, h2⟩ | ⟨a1, h1, h2⟩
          · simp only [List.cons.injEq] at h2
            rw [h2.1] at hmark
            cases hmark
          · have he : e ∈ (markPlayed E toCfg m.Id (searchItems E toCfg it.Name s).state).log := by
              rw [h2]; simp
            have ha1 : a1 = [] := by
              have := congrArg List.length h2
              simp only [List.length_append, List.length_cons] at this
              have : a1.length = 0 := by omega
              exact List.length_eq_zero.1 this
            refine ⟨[], _, by rw [h1, ha1]; rfl, it, resp, ir, m, by simp, rfl, rfl, hbad, hdec,
              by rw [hitems]; exact hfm, by simpa using hp, hreq e he⟩

/-- The exchanges of the loop: every mark-played request comes right after
the search that justifies it, and there is none in simulation mode. -/
theorem syncLoop_marks {σ β : Type} (E : Env σ β) (toCfg : ServerConfig) (dryRun : Bool)
    (played : List Item) (s : σ) (marked : Int) :
    MarksFollowSearch E toCfg played (syncLoop E toCfg dryRun played s marked).log
    ∧ (dryRun = true → ∀ e ∈ (syncLoop E toCfg dryRun played s marked).log,
        isMarkRequest e.req = false) := by
  induction played generalizing s marked with
  | nil =>
    simp only [syncLoop]
    exact ⟨marksFollowSearch_of_no_mark E toCfg _ _ (by simp), fun _ => by simp⟩
  | cons it rest ih =>
    simp only [syncLoop]
    obtain ⟨h1, h2⟩ := syncItem_marks E toCfg dryRun it s marked
    obtain ⟨h3, h4⟩ := ih (syncItem E toCfg dryRun it s marked).state
      (syncItem E toCfg dryRun it s marked).ret
    refine ⟨marksFollowSearch_append E toCfg _ _ _
      (marksFollowSearch_mono E toCfg [it] _ _ (by simp) h1)
      (marksFollowSearch_mono E toCfg rest _ _ (by intro x hx; simp [hx]) h3), ?_⟩
    intro hd e he
    rcases List.mem_append.1 he with he | he
    · exact h2 hd e he
    · exact h4 hd e he

/-! ## Properties of `syncDirection` -/

/-- C6: a pass in simulation mode whose discovery succeeded returns, performs
no mark-played request, and counts the played source items whose destination
search succeeded, for which `findMatchingItem` returned a candidate, and whose
candidate is not played.  When only mark-played requests change the servers,
the servers are left as they were. -/
theorem syncDirection_dryRun {σ β : Type} (E : Env σ β) (fromCfg toCfg : ServerConfig)
    (fuel : Nat) (s : σ) (f : Run σ β (Except (GoError β) (List Item))) (played : List Item)
    (hf : fetchPlayedItems E fromCfg fuel s = some f) (hp : f.ret = .ok played) :
    ∃ r, syncDirection E fromCfg toCfg true fuel s = some r
      ∧ (∀ e ∈ r.log, isMarkRequest e.req = false)
      ∧ r.ret = (Int.ofNat ((searchAnswers E toCfg played f.state).countP
          (actionable E.EqualFold)), none)
      ∧ ((∀ s0 req, isMarkRequest req = false → (E.Do s0 req).1 = s0) → r.state = s) := by
  have hflog : ∀ e ∈ f.log, isMarkRequest e.req = false := by
    intro e he
    obtain ⟨st, hst⟩ := fetchLoop_log E fromCfg _ fuel s 0 [] f hf e he
    rw [hst]
    rfl
  unfold syncDirection
  rw [hf]
  simp only [hp]
  by_cases hlen : played.length = 0
  · rw [if_pos hlen]
    have hnil : played = [] := List.length_eq_zero.1 hlen
    subst hnil
    exact ⟨_, rfl, hflog, by simp [searchAnswers],
      fun hro => fetchLoop_state E fromCfg _ hro fuel s 0 [] f hf⟩
  · rw [if_neg hlen]
    obtain ⟨h1, h2, h3⟩ := syncLoop_dryRun E toCfg played f.state 0
    refine ⟨_, rfl, ?_, by simp [h2], ?_⟩
    · intro e he
      rcases List.mem_append.1 he with he | he
      · exact hflog e he
      · exact h1 e he
    · intro hro
      simp only
      rw [h3 hro]
      exact fetchLoop_state E fromCfg _ hro fuel s 0 [] f hf

/-- C6 on `settledServer`: of the two played source items, one has a played
match and one an unplayed match. -/
theorem syncDirection_dryRun_witness :
    ∃ r, syncDirection settledServer cfgA cfgB true 1 () = some r
      ∧ (∀ e ∈ r.log, isMarkRequest e.req = false)
      ∧ r.ret = (Int.ofNat ((searchAnswers settledServer cfgB [seenItem, countedItem] ()).countP
          (actionable settledServer.EqualFold)), none)
      ∧ ((∀ s0 req, isMarkRequest req = false → (settledServer.Do s0 req).1 = s0) →
          r.state = ()) :=
  syncDirection_dryRun settledServer cfgA cfgB 1 ()
    ⟨(), [⟨Request.listItems "https://a.example.org" "ua" "ta" 100 0, okItems demoPage⟩],
      .ok [seenItem, countedItem]⟩ [seenItem, countedItem] rfl rfl

/-- C7: when the destination search of the played item `it` fails, the pass
goes on with the items after it, from the counter reached before it: the item
contributes its search request, nothing else, and no increment.  When the
failed search left the servers as they were, state, exchanges and count of
the rest of the pass are those of the loop over the played list without
`it`. -/
theorem syncDirection_search_failure {σ β : Type} (E : Env σ β) (fromCfg toCfg : ServerConfig)
    (dryRun : Bool) (fuel : Nat) (s : σ) (f : Run σ β (Except (GoError β) (List Item)))
    (pre : List Item) (it : Item) (post : List Item) (err : GoError β)
    (hf : fetchPlayedItems E fromCfg fuel s = some f) (hp : f.ret = .ok (pre ++ it :: post))
    (rp : Run σ β Int) (hrp : rp = syncLoop E toCfg dryRun pre f.state 0)
    (sr : Run σ β (Except (GoError β) (List Item)))
    (hsr : sr = searchItems E toCfg it.Name rp.state)
    (hfail : sr.ret = .error err)
    (rq : Run σ β Int) (hrq : rq = syncLoop E toCfg dryRun post sr.state rp.ret) :
    syncDirection E fromCfg toCfg dryRun fuel s
        = some ⟨rq.state, f.log ++ (rp.log ++ (sr.log ++ rq.log)), (rq.ret, none)⟩
    ∧ (∀ e ∈ sr.log,
        e.req = Request.searchItems (ensureScheme toCfg.Host) toCfg.UserID toCfg.Token it.Name)
    ∧ (sr.state = rp.state →
        syncLoop E toCfg dryRun (pre ++ post) f.state 0 = ⟨rq.state, rp.log ++ rq.log, rq.ret⟩) := by
  subst hrp hsr hrq
  have hskip := syncItem_skip E toCfg dryRun it (syncLoop E toCfg dryRun pre f.state 0).state
    (syncLoop E toCfg dryRun pre f.state 0).ret (Or.inl ⟨err, hfail⟩)
  refine ⟨?_, searchItems_log E toCfg it.Name _, ?_⟩
  · rw [syncDirection_split E fromCfg toCfg dryRun fuel s f pre it post hf hp, hskip]
  · intro hst
    rw [syncLoop_append, hst]

/-- C7 on `flakyServer`: the search for the first played item times out, the
second one is still processed and marked. -/
theorem syncDirection_search_failure_witness :
    syncDirection flakyServer cfgA cfgB false 1 ()
        = some ⟨(syncLoop flakyServer cfgB false [countedItem] () 0).state,
            [⟨Request.listItems "https://a.example.org" "ua" "ta" 100 0, okItems demoPage⟩]
              ++ ((syncLoop flakyServer cfgB false [] () 0).log
                ++ ((searchItems flakyServer cfgB "Alpha" ()).log
                  ++ (syncLoop flakyServer cfgB false [countedItem] () 0).log)),
            ((syncLoop flakyServer cfgB false [countedItem] () 0).ret, none)⟩
    ∧ (∀ e ∈ (searchItems flakyServer cfgB "Alpha" ()).log,
        e.req = Request.searchItems (ensureScheme cfgB.Host) cfgB.UserID cfgB.Token seenItem.Name)
    ∧ ((searchItems flakyServer cfgB "Alpha" ()).state = (syncLoop flakyServer cfgB false [] () 0).state →
        syncLoop flakyServer cfgB false ([] ++ [countedItem]) () 0
          = ⟨(syncLoop flakyServer cfgB false [countedItem] () 0).state,
              (syncLoop flakyServer cfgB false [] () 0).log
                ++ (syncLoop flakyServer cfgB false [countedItem] () 0).log,
              (syncLoop flakyServer cfgB false [countedItem] () 0).ret⟩) :=
  syncDirection_search_failure flakyServer cfgA cfgB false 1 ()
    ⟨(), [⟨Request.listItems "https://a.example.org" "ua" "ta" 100 0, okItems demoPage⟩],
      .ok [seenItem, countedItem]⟩ [] seenItem [countedItem] (.lib "timeout") rfl rfl
    (syncLoop flakyServer cfgB false [] () 0) rfl
    (searchItems flakyServer cfgB "Alpha" ()) rfl rfl
    (syncLoop flakyServer cfgB false [countedItem] () 0) rfl

/-- C8: a pass whose discovery loop ended returns, and it returns an error
exactly when discovery failed.  When discovery failed, the pass returns count
0 with the error of discovery, and its exchanges are those of discovery, all
listing requests.  When discovery succeeded no error is returned, and a pass
that writes counts exactly the mark-played requests the destination accepted:
a failed write adds nothing. -/
theorem syncDirection_error_iff {σ β : Type} (E : Env σ β) (fromCfg toCfg : ServerConfig)
    (dryRun : Bool) (fuel : Nat) (s : σ) (f : Run σ β (Except (GoError β) (List Item)))
    (hf : fetchPlayedItems E fromCfg fuel s = some f) :
    ∃ r, syncDirection E fromCfg toCfg dryRun fuel s = some r
      ∧ (r.ret.2.isSome = true ↔ ∃ err, f.ret = .error err)
      ∧ (∀ err, f.ret = .error err →
          r.ret = (0, some err) ∧ r.state = f.state ∧ r.log = f.log
          ∧ ∀ e ∈ r.log, ∃ st, e.req = Request.listItems (ensureScheme fromCfg.Host)
              fromCfg.UserID fromCfg.Token 100 st)
      ∧ (∀ played, f.ret = .ok played →
          r.ret.2 = none
          ∧ (dryRun = false → r.ret.1 = (r.log.countP markSucceeded : Nat))) := by
  have hflog := fetchLoop_log E fromCfg _ fuel s 0 [] f hf
  have hfcount : f.log.countP markSucceeded = 0 := by
    rw [List.countP_eq_zero]
    intro e he
    obtain ⟨st, hst⟩ := hflog e he
    simp [markSucceeded, hst]
  unfold syncDirection
  rw [hf]
  simp only
  cases hret : f.ret with
  | error err =>
    simp only
    refine ⟨_, rfl, by simp, ?_, by simp⟩
    intro err2 he
    cases he
    exact ⟨rfl, rfl, rfl, hflog⟩
  | ok played =>
    simp only
    by_cases hlen : played.length = 0
    · rw [if_pos hlen]
      refine ⟨_, rfl, by simp, by simp, ?_⟩
      intro p _
      exact ⟨rfl, fun _ => by simp [hfcount]⟩
    · rw [if_neg hlen]
      refine ⟨_, rfl, by simp, by simp, ?_⟩
      intro p _
      refine ⟨rfl, fun hd => ?_⟩
      subst hd
      simp only [List.countP_append, hfcount, zero_add]
      rw [syncLoop_count]
      simp

/-- C8 on `readOnlyServer`, whose discovery succeeds and whose writes fail. -/
theorem syncDirection_error_iff_witness :
    ∃ r, syncDirection readOnlyServer cfgA cfgB false 1 () = some r
      ∧ (r.ret.2.isSome = true ↔
          ∃ err, (Except.ok [seenItem, countedItem] : Except (GoError ItemsResponse) (List Item))
            = .error err)
      ∧ (∀ err, (Except.ok [seenItem, countedItem] : Except (GoError ItemsResponse) (List Item))
            = .error err →
          r.ret = (0, some err) ∧ r.state = ()
          ∧ r.log = [⟨Request.listItems "https://a.example.org" "ua" "ta" 100 0, okItems demoPage⟩]
          ∧ ∀ e ∈ r.log, ∃ st, e.req = Request.listItems (ensureScheme cfgA.Host)
              cfgA.UserID cfgA.Token 100 st)
      ∧ (∀ played,
          (Except.ok [seenItem, countedItem] : Except (GoError ItemsResponse) (List Item))
            = .ok played →
          r.ret.2 = none
          ∧ (false = false → r.ret.1 = (r.log.countP markSucceeded : Nat))) :=
  syncDirection_error_iff readOnlyServer cfgA cfgB false 1 ()
    ⟨(), [⟨Request.listItems "https://a.example.org" "ua" "ta" 100 0, okItems demoPage⟩],
      .ok [seenItem, countedItem]⟩ rfl

/-- C10: in a pass whose discovery succeeded, a played source item whose
matched destination candidate is already played contributes its search
request, nothing else, and no increment; and every mark-played request of the
pass comes right after the search exchange that justifies it: the search for
a played source item, answered with candidates among which `findMatchingItem`
picked a candidate reported as not played, whose Id the request carries.
There is no mark-played request at all in simulation mode. -/
theorem syncDirection_already_played {σ β : Type} (E : Env σ β) (fromCfg toCfg : ServerConfig)
    (dryRun : Bool) (fuel : Nat) (s : σ) (f : Run σ β (Except (GoError β) (List Item)))
    (played : List Item) (r : Run σ β (Int × Option (GoError β)))
    (hf : fetchPlayedItems E fromCfg fuel s = some f) (hp : f.ret = .ok played)
    (hr : syncDirection E fromCfg toCfg dryRun fuel s = some r) :
    (∀ pre it post cands m, played = pre ++ it :: post →
        (searchItems E toCfg it.Name (syncLoop E toCfg dryRun pre f.state 0).state).ret
          = .ok cands →
        findMatchingItem E.EqualFold it cands = some m → isPlayed m = true →
        r = ⟨(syncLoop E toCfg dryRun post
                (searchItems E toCfg it.Name (syncLoop E toCfg dryRun pre f.state 0).state).state
                (syncLoop E toCfg dryRun pre f.state 0).ret).state,
              f.log ++ ((syncLoop E toCfg dryRun pre f.state 0).log
                ++ ((searchItems E toCfg it.Name (syncLoop E toCfg dryRun pre f.state 0).state).log
                  ++ (syncLoop E toCfg dryRun post
                    (searchItems E toCfg it.Name
                      (syncLoop E toCfg dryRun pre f.state 0).state).state
                    (syncLoop E toCfg dryRun pre f.state 0).ret).log)),
              ((syncLoop E toCfg dryRun post
                (searchItems E toCfg it.Name (syncLoop E toCfg dryRun pre f.state 0).state).state
                (syncLoop E toCfg dryRun pre f.state 0).ret).ret, none)⟩
        ∧ ∀ e ∈ (searchItems E toCfg it.Name (syncLoop E toCfg dryRun pre f.state 0).state).log,
            isMarkRequest e.req = false)
    ∧ MarksFollowSearch E toCfg played r.log
    ∧ (dryRun = true → ∀ e ∈ r.log, isMarkRequest e.req = false) := by
  have hflog : ∀ e ∈ f.log, isMarkRequest e.req = false := by
    intro e he
    obtain ⟨st, hst⟩ := fetchLoop_log E fromCfg _ fuel s 0 [] f hf e he
    rw [hst]
    rfl
  refine ⟨?_, ?_⟩
  · intro pre it post cands m hpl hsr hfm hpm
    subst hpl
    rw [syncDirection_split E fromCfg toCfg dryRun fuel s f pre it post hf hp,
      syncItem_skip E toCfg dryRun it _ _ (Or.inr ⟨cands, hsr, Or.inr ⟨m, hfm, hpm⟩⟩)] at hr
    simp only [Option.some.injEq] at hr
    exact ⟨hr.symm, searchItems_no_mark E toCfg it.Name _⟩
  · unfold syncDirection at hr
    rw [hf] at hr
    simp only [hp] at hr
    by_cases hlen : played.length = 0
    · rw [if_pos hlen] at hr
      simp only [Option.some.injEq] at hr
      subst hr
      exact ⟨marksFollowSearch_of_no_mark E toCfg _ _ hflog, fun _ => hflog⟩
    · rw [if_neg hlen] at hr
      simp only [Option.some.injEq] at hr
      subst hr
      obtain ⟨h1, h2⟩ := syncLoop_marks E toCfg dryRun played f.state 0
      refine ⟨marksFollowSearch_append E toCfg _ _ _
        (marksFollowSearch_of_no_mark E toCfg _ _ hflog) h1, ?_⟩
      intro hd e he
      rcases List.mem_append.1 he with he | he
      · exact hflog e he
      · exact h2 hd e he

/-! ## Repeated synchronization -/

/-- An item is a later version of itself. -/
theorem grown_refl (x : Item) : Grown x x := ⟨rfl, rfl, rfl, id⟩

/-- Later versions compose. -/
theorem grown_trans {x y z : Item} (h1 : Grown x y) (h2 : Grown y z) : Grown x z :=
  ⟨h1.1.trans h2.1, h1.2.1.trans h2.2.1, h1.2.2.1.trans h2.2.2.1, fun h => h2.2.2.2 (h1.2.2.2 h)⟩

/-- A catalog is a later version of itself. -/
theorem grownList_refl (l : List Item) : List.Forall₂ Grown l l :=
  List.forall₂_same.2 (fun x _ => grown_refl x)

/-- Later versions of catalogs compose. -/
theorem grownList_trans {l1 l2 l3 : List Item} (h1 : List.Forall₂ Grown l1 l2)
    (h2 : List.Forall₂ Grown l2 l3) : List.Forall₂ Grown l1 l3 := by
  induction h1 generalizing l3 with
  | nil => cases h2; exact List.Forall₂.nil
  | cons hxy _ ih =>
    cases h2 with
    | cons hyz hrest => exact List.Forall₂.cons (grown_trans hxy hyz) (ih hrest)

/-- A range loop whose test does not look at the play state returns
corresponding candidates on a catalog and on a later version of it. -/
theorem rangeFirst_grown (cond : Item → Bool) (hc : ∀ x y, Grown x y → cond x = cond y)
    {l1 l2 : List Item} (h : List.Forall₂ Grown l1 l2) :
    (rangeFirst cond l1 = none ∧ rangeFirst cond l2 = none)
    ∨ ∃ m1 m2, rangeFirst cond l1 = some m1 ∧ rangeFirst cond l2 = some m2 ∧ Grown m1 m2 := by
  induction h with
  | nil => exact Or.inl ⟨rfl, rfl⟩
  | @cons x y t1 t2 hxy _ ih =>
    by_cases hx : cond x = true
    · have hy : cond y = true := by rw [← hc x y hxy]; exact hx
      exact Or.inr ⟨x, y, by simp [rangeFirst, hx], by simp [rangeFirst, hy], hxy⟩
    · have hy : ¬ cond y = true := by rw [← hc x y hxy]; exact hx
      simpa [rangeFirst, hx, hy] using ih

/-- `findMatchingItem` returns corresponding candidates on a candidate list
and on a later version of it. -/
theorem findMatchingItem_grown (ef : String → String → Bool) (src : Item)
    {l1 l2 : List Item} (h : List.Forall₂ Grown l1 l2) :
    (findMatchingItem ef src l1 = none ∧ findMatchingItem ef src l2 = none)
    ∨ ∃ m1 m2, findMatchingItem ef src l1 = some m1 ∧ findMatchingItem ef src l2 = some m2
        ∧ Grown m1 m2 := by
  unfold findMatchingItem
  rcases rangeFirst_grown (fun c => ef c.Id src.Id)
      (fun x y hxy => by simp only [hxy.2.1]) h with ⟨h1, h2⟩ | ⟨m1, m2, h1, h2, hg⟩
  · rw [h1, h2]
    rcases rangeFirst_grown (fun c => decide (c.Name = src.Name))
        (fun x y hxy => by simp only [hxy.1]) h with ⟨h3, h4⟩ | ⟨m1, m2, h3, h4, hg⟩
    · rw [h3, h4]
      rcases rangeFirst_grown
          (fun c => decide (src.RunTimeTicks ≠ 0) && decide (src.RunTimeTicks = c.RunTimeTicks))
          (fun x y hxy => by simp only [hxy.2.2.1]) h with ⟨h5, h6⟩ | ⟨m1, m2, h5, h6, hg⟩
      · rw [h5, h6]
        exact Or.inl ⟨rfl, rfl⟩
      · rw [h5, h6]
        exact Or.inr ⟨m1, m2, rfl, rfl, hg⟩
    · rw [h3, h4]
      exact Or.inr ⟨m1, m2, rfl, rfl, hg⟩
  · rw [h1, h2]
    exact Or.inr ⟨m1, m2, rfl, rfl, hg⟩

/-- The answer to a search on a later version of a catalog is a later version
of the answer. -/
theorem searchCatalog_grown (hit : String → Item → Bool) (term : String)
    {c1 c2 : List Item} (h : List.Forall₂ Grown c1 c2) :
    List.Forall₂ Grown (searchCatalog hit term c1) (searchCatalog hit term c2) := by
  unfold searchCatalog
  apply List.forall₂_take
  induction h with
  | nil => exact List.Forall₂.nil
  | @cons x y t1 t2 hxy _ ih =>
    have hxy2 : ({ x with UserData := none } : Item) = { y with UserData := none } := by
      rw [hxy.1, hxy.2.1, hxy.2.2.1]
    by_cases hx : hit term { x with UserData := none } = true
    · have hy : hit term { y with UserData := none } = true := by rw [← hxy2]; exact hx
      simp only [List.filter_cons, hx, hy, if_true]
      exact List.Forall₂.cons hxy ih
    · have hy : ¬ hit term { y with UserData := none } = true := by rw [← hxy2]; exact hx
      simp only [List.filter_cons, hx, hy, if_false]
      exact ih

/-- The candidates of a search are items of the catalog. -/
theorem searchCatalog_subset (hit : String → Item → Bool) (term : String) (cat : List Item)
    (m : Item) (h : m ∈ searchCatalog hit term cat) : m ∈ cat :=
  (List.mem_filter.1 (List.mem_of_mem_take h)).1

/-- A marked item is played, and is a later version of the item. -/
theorem markItem_grown (it : Item) : isPlayed (markItem it) = true ∧ Grown it (markItem it) := by
  have hp : isPlayed (markItem it) = true := by
    unfold isPlayed markItem
    cases it.UserData <;> simp
  exact ⟨hp, rfl, rfl, rfl, fun _ => hp⟩

/-- A catalog after a mark-played request is a later version of the catalog. -/
theorem markCatalog_grown (itemId : String) (cat : List Item) :
    List.Forall₂ Grown cat (markCatalog itemId cat) := by
  unfold markCatalog
  rw [List.forall₂_map_right_iff]
  apply List.forall₂_same.2
  intro x _
  by_cases hx : x.Id = itemId
  · simp only [hx, if_true]
    exact (markItem_grown x).2
  · simp only [hx, if_false]
    exact grown_refl x

/-- After a mark-played request, the items with the Id of the request are
played. -/
theorem markCatalog_played (itemId : String) (cat : List Item) (y : Item)
    (hy : y ∈ markCatalog itemId cat) (hid : y.Id = itemId) : isPlayed y = true := by
  unfold markCatalog at hy
  obtain ⟨x, _, hxy⟩ := List.mem_map.1 hy
  by_cases hx : x.Id = itemId
  · simp only [hx, if_true] at hxy
    rw [← hxy]
    exact (markItem_grown x).1
  · simp only [hx, if_false] at hxy
    rw [hxy] at hx
    exact absurd hid hx

/-- An item that has nothing left to do on a catalog has nothing left to do
on a later version of it. -/
theorem settled_mono (hit : String → Item → Bool) (ef : String → String → Bool)
    {c1 c2 : List Item} (h : List.Forall₂ Grown c1 c2) (it : Item)
    (hs : Settled hit ef c1 it) : Settled hit ef c2 it := by
  intro m2 hm2
  rcases findMatchingItem_grown ef it (searchCatalog_grown hit it.Name h) with
    ⟨_, h2⟩ | ⟨m1, m3, h1, h2, hg⟩
  · rw [h2] at hm2
    cases hm2
  · rw [h2] at hm2
    cases hm2
    exact hg.2.2.2 (hs m1 h1)

/-- Reading back the catalog that was replaced. -/
theorem pick_put_same (x : Bool) (c : List Item) (s : Catalogs) : pick x (put x c s) = c := by
  cases x <;> rfl

/-- Replacing one catalog leaves the other one alone. -/
theorem pick_put_other (x : Bool) (c : List Item) (s : Catalogs) :
    pick (!x) (put x c s) = pick (!x) s := by
  cases x <;> rfl

/-- A search on the catalog servers succeeds, changes nothing and returns
the answer of the catalog addressed. -/
theorem catalog_searchItems (hostA : String) (hit : String → Item → Bool)
    (ef : String → String → Bool) (cfg : ServerConfig) (term : String) (s : Catalogs) :
    (searchItems (catalogEnv hostA hit ef) cfg term s).state = s
    ∧ (searchItems (catalogEnv hostA hit ef) cfg term s).ret
        = .ok (searchCatalog hit term (pick (decide (ensureScheme cfg.Host = hostA)) s)) := by
  simp [searchItems, catalogEnv, badStatus]

/-- A mark-played request on the catalog servers succeeds and marks the
catalog addressed. -/
theorem catalog_markPlayed (hostA : String) (hit : String → Item → Bool)
    (ef : String → String → Bool) (cfg : ServerConfig) (itemId : String) (s : Catalogs) :
    (markPlayed (catalogEnv hostA hit ef) cfg itemId s).state
        = put (decide (ensureScheme cfg.Host = hostA))
            (markCatalog itemId (pick (decide (ensureScheme cfg.Host = hostA)) s)) s
    ∧ (markPlayed (catalogEnv hostA hit ef) cfg itemId s).ret = none := by
  simp [markPlayed, catalogEnv, badStatus]

/-- One iteration of a writing pass on the catalog servers: the other catalog
is untouched, the destination catalog becomes a later version of itself on
which the item has nothing left to do, the counter does not decrease, and
the servers change only if the counter grows. -/
theorem catalog_syncItem (hostA : String) (hit : String → Item → Bool)
    (ef : String → String → Bool) (toCfg : ServerConfig) (tb : Bool)
    (htb : decide (ensureScheme toCfg.Host = hostA) = tb) (it : Item) (s : Catalogs)
    (marked : Int) :
    pick (!tb) (syncItem (catalogEnv hostA hit ef) toCfg false it s marked).state = pick (!tb) s
    ∧ List.Forall₂ Grown (pick tb s)
        (pick tb (syncItem (catalogEnv hostA hit ef) toCfg false it s marked).state)
    ∧ Settled hit ef (pick tb (syncItem (catalogEnv hostA hit ef) toCfg false it s marked).state) it
    ∧ marked ≤ (syncItem (catalogEnv hostA hit ef) toCfg false it s marked).ret
    ∧ ((syncItem (catalogEnv hostA hit ef) toCfg false it s marked).ret = marked →
        (syncItem (catalogEnv hostA hit ef) toCfg false it s marked).state = s) := by
  obtain ⟨hs1, hs2⟩ := catalog_searchItems hostA hit ef toCfg it.Name s
  rw [htb] at hs2
  have hef : (catalogEnv hostA hit ef).EqualFold = ef := rfl
  cases hfm : findMatchingItem ef it (searchCatalog hit it.Name (pick tb s)) with
  | none =>
    have hrun : syncItem (catalogEnv hostA hit ef) toCfg false it s marked
        = ⟨s, (searchItems (catalogEnv hostA hit ef) toCfg it.Name s).log, marked⟩ := by
      rw [syncItem_skip _ _ _ _ _ _ (Or.inr ⟨_, hs2, Or.inl (by rw [hef]; exact hfm)⟩), hs1]
    rw [hrun]
    refine ⟨rfl, grownList_refl _, ?_, le_refl _, fun _ => rfl⟩
    intro m hm
    rw [hfm] at hm
    cases hm
  | some x =>
    by_cases hp : isPlayed x = true
    · have hrun : syncItem (catalogEnv hostA hit ef) toCfg false it s marked
          = ⟨s, (searchItems (catalogEnv hostA hit ef) toCfg it.Name s).log, marked⟩ := by
        rw [syncItem_skip _ _ _ _ _ _
          (Or.inr ⟨_, hs2, Or.inr ⟨x, by rw [hef]; exact hfm, hp⟩⟩), hs1]
      rw [hrun]
      refine ⟨rfl, grownList_refl _, ?_, le_refl _, fun _ => rfl⟩
      intro m hm
      rw [hfm] at hm
      cases hm
      exact hp
    · obtain ⟨hm1, hm2⟩ := catalog_markPlayed hostA hit ef toCfg x.Id s
      rw [htb] at hm1
      have hstate : (syncItem (catalogEnv hostA hit ef) toCfg false it s marked).state
          = put tb (markCatalog x.Id (pick tb s)) s := by
        simp only [syncItem, hs2, hef, hfm, hp, hs1, hm2, hm1, if_false, Bool.false_eq_true]
      have hret : (syncItem (catalogEnv hostA hit ef) toCfg false it s marked).ret
          = marked + 1 := by
        simp only [syncItem, hs2, hef, hfm, hp, hs1, hm2, if_false, Bool.false_eq_true]
      rw [hstate, hret, pick_put_same, pick_put_other]
      refine ⟨rfl, markCatalog_grown _ _, ?_, by omega, fun h => by omega⟩
      intro m hm
      rcases findMatchingItem_grown ef it
          (searchCatalog_grown hit it.Name (markCatalog_grown x.Id (pick tb s))) with
        ⟨h1, _⟩ | ⟨m1, m2, h1, h2, hg⟩
      · rw [hfm] at h1
        cases h1
      · rw [hfm] at h1
        cases h1
        rw [h2] at hm
        cases hm
        exact markCatalog_played x.Id (pick tb s) m
          (searchCatalog_subset hit it.Name _ m (findMatchingItem_mem ef it _ m h2)) hg.2.1.symm

/-- A writing loop on the catalog servers: the other catalog is untouched,
the destination catalog becomes a later version of itself on which every
item of the loop has nothing left to do, the counter does not decrease, and
the servers change only if the counter grows. -/
theorem catalog_syncLoop (hostA : String) (hit : String → Item → Bool)
    (ef : String → String → Bool) (toCfg : ServerConfig) (tb : Bool)
    (htb : decide (ensureScheme toCfg.Host = hostA) = tb) (played : List Item) (s : Catalogs)
    (marked : Int) :
    pick (!tb) (syncLoop (catalogEnv hostA hit ef) toCfg false played s marked).state
        = pick (!tb) s
    ∧ List.Forall₂ Grown (pick tb s)
        (pick tb (syncLoop (catalogEnv hostA hit ef) toCfg false played s marked).state)
    ∧ (∀ it ∈ played, Settled hit ef
        (pick tb (syncLoop (catalogEnv hostA hit ef) toCfg false played s marked).state) it)
    ∧ marked ≤ (syncLoop (catalogEnv hostA hit ef) toCfg false played s marked).ret
    ∧ ((syncLoop (catalogEnv hostA hit ef) toCfg false played s marked).ret = marked →
        (syncLoop (catalogEnv hostA hit ef) toCfg false played s marked).state = s) := by
  induction played generalizing s marked with
  | nil =>
    exact ⟨rfl, grownList_refl _, by simp, le_refl _, fun _ => rfl⟩
  | cons it rest ih =>
    simp only [syncLoop]
    obtain ⟨a1, a2, a3, a4, a5⟩ := catalog_syncItem hostA hit ef toCfg tb htb it s marked
    obtain ⟨b1, b2, b3, b4, b5⟩ :=
      ih (syncItem (catalogEnv hostA hit ef) toCfg false it s marked).state
        (syncItem (catalogEnv hostA hit ef) toCfg false it s marked).ret
    refine ⟨b1.trans a1, grownList_trans a2 b2, ?_, le_trans a4 b4, ?_⟩
    · intro x hx
      rcases List.mem_cons.1 hx with rfl | hx
      · exact settled_mono hit ef b2 x a3
      · exact b3 x hx
    · intro h
      have h1 : (syncItem (catalogEnv hostA hit ef) toCfg false it s marked).ret = marked := by
        omega
      rw [b5 (by omega), a5 h1]

/-- A writing loop over items that have nothing left to do on the destination
catalog changes nothing and counts nothing. -/
theorem catalog_syncLoop_settled (hostA : String) (hit : String → Item → Bool)
    (ef : String → String → Bool) (toCfg : ServerConfig) (played : List Item) (s : Catalogs)
    (marked : Int)
    (hs : ∀ it ∈ played, Settled hit ef (pick (decide (ensureScheme toCfg.Host = hostA)) s) it) :
    (syncLoop (catalogEnv hostA hit ef) toCfg false played s marked).state = s
    ∧ (syncLoop (catalogEnv hostA hit ef) toCfg false played s marked).ret = marked := by
  induction played generalizing marked with
  | nil => simp [syncLoop]
  | cons it rest ih =>
    obtain ⟨hs1, hs2⟩ := catalog_searchItems hostA hit ef toCfg it.Name s
    have hef : (catalogEnv hostA hit ef).EqualFold = ef := rfl
    have hrun : syncItem (catalogEnv hostA hit ef) toCfg false it s marked
        = ⟨s, (searchItems (catalogEnv hostA hit ef) toCfg it.Name s).log, marked⟩ := by
      rw [syncItem_skip _ _ _ _ _ _ (Or.inr ⟨_, hs2, ?_⟩), hs1]
      rw [hef]
      cases hfm : findMatchingItem ef it
          (searchCatalog hit it.Name (pick (decide (ensureScheme toCfg.Host = hostA)) s)) with
      | none => exact Or.inl rfl
      | some x => exact Or.inr ⟨x, rfl, hs it (List.mem_cons_self _ _) x hfm⟩
    simp only [syncLoop, hrun]
    exact ih marked (fun x hx => hs x (List.mem_cons_of_mem _ hx))

/-- One iteration of the discovery loop on a short page: the loop ends. -/
theorem fetchLoop_short {σ β : Type} (E : Env σ β) (cfg : ServerConfig) (host : String)
    (fuel : Nat) (s s1 : σ) (start : Int) (results : List Item) (resp : HttpResponse β)
    (ir : ItemsResponse)
    (hreq : E.NewRequest (Request.listItems host cfg.UserID cfg.Token 100 start) = none)
    (hdo : E.Do s (Request.listItems host cfg.UserID cfg.Token 100 start) = (s1, .ok resp))
    (hstatus : badStatus resp = false) (hdec : E.Unmarshal resp.Body = .ok ir)
    (hlen : ir.Items.length < 100) :
    fetchLoop E cfg host (fuel + 1) s start results
      = some ⟨s1, [⟨Request.listItems host cfg.UserID cfg.Token 100 start, .ok resp⟩],
          .ok (results ++ ir.Items.filter isPlayed)⟩ := by
  rw [fetchLoop]
  simp only [hreq, hdo, hstatus, hdec, if_pos hlen, retainPlayed_eq]
  simp

/-- One iteration of the discovery loop on a full page: the loop goes on
with the next `StartIndex`. -/
theorem fetchLoop_full {σ β : Type} (E : Env σ β) (cfg : ServerConfig) (host : String)
    (fuel : Nat) (s s1 : σ) (start : Int) (results : List Item) (resp : HttpResponse β)
    (ir : ItemsResponse) (r : Run σ β (Except (GoError β) (List Item)))
    (hreq : E.NewRequest (Request.listItems host cfg.UserID cfg.Token 100 start) = none)
    (hdo : E.Do s (Request.listItems host cfg.UserID cfg.Token 100 start) = (s1, .ok resp))
    (hstatus : badStatus resp = false) (hdec : E.Unmarshal resp.Body = .ok ir)
    (hlen : ¬ ir.Items.length < 100)
    (hrec : fetchLoop E cfg host fuel s1 (start + 100) (results ++ ir.Items.filter isPlayed)
      = some r) :
    fetchLoop E cfg host (fuel + 1) s start results
      = some ⟨r.state, ⟨Request.listItems host cfg.UserID cfg.Token 100 start, .ok resp⟩ :: r.log,
          r.ret⟩ := by
  rw [fetchLoop]
  simp only [hreq, hdo, hstatus, hdec, if_neg hlen, retainPlayed_eq, hrec]
  simp

/-- The discovery loop on the catalog servers ends when the fuel covers the
catalog, changes nothing, and returns the played items of the catalog from
the index it starts at. -/
theorem catalog_fetchLoop (hostA : String) (hit : String → Item → Bool)
    (ef : String → String → Bool) (cfg : ServerConfig) (host : String) (s : Catalogs)
    (fuel n : Nat) (results : List Item)
    (hfuel : (pick (decide (host = hostA)) s).length < n + 100 * (fuel + 1)) :
    ∃ r, fetchLoop (catalogEnv hostA hit ef) cfg host (fuel + 1) s (n : Int) results = some r
      ∧ r.state = s
      ∧ r.ret = .ok (results ++ ((pick (decide (host = hostA)) s).drop n).filter isPlayed) := by
  have hpage : listPage (pick (decide (host = hostA)) s) 100 (n : Int)
      = List.take 100 (List.drop n (pick (decide (host = hostA)) s)) := by
    simp [listPage]
  induction fuel generalizing n results with
  | zero =>
    have htake : List.take 100 (List.drop n (pick (decide (host = hostA)) s))
        = List.drop n (pick (decide (host = hostA)) s) := by
      apply List.take_of_length_le
      rw [List.length_drop]
      omega
    refine ⟨_, fetchLoop_short (catalogEnv hostA hit ef) cfg host 0 s s n results
      ⟨200, "200 OK", ⟨listPage (pick (decide (host = hostA)) s) 100 n,
        (pick (decide (host = hostA)) s).length, n⟩⟩ _ rfl rfl (by simp [badStatus]) rfl ?_,
      rfl, ?_⟩
    · simp only [hpage, List.length_take, List.length_drop]
      omega
    · simp only [hpage, htake]
  | succ fuel ih =>
    by_cases hlen : (List.take 100 (List.drop n (pick (decide (host = hostA)) s))).length < 100
    · have htake : List.take 100 (List.drop n (pick (decide (host = hostA)) s))
          = List.drop n (pick (decide (host = hostA)) s) := by
        apply List.take_of_length_le
        rw [List.length_take, List.length_drop] at hlen
        rw [List.length_drop]
        omega
      refine ⟨_, fetchLoop_short (catalogEnv hostA hit ef) cfg host (fuel + 1) s s n results
        ⟨200, "200 OK", ⟨listPage (pick (decide (host = hostA)) s) 100 n,
          (pick (decide (host = hostA)) s).length, n⟩⟩ _ rfl rfl (by simp [badStatus]) rfl ?_,
        rfl, ?_⟩
      · simp only [hpage]
        exact hlen
      · simp only [hpage, htake]
    · have hcast : ((n : Int) + 100) = ((n + 100 : Nat) : Int) := by push_cast; rfl
      have hp2 : listPage (pick (decide (host = hostA)) s) 100 ((n + 100 : Nat) : Int)
          = List.take 100 (List.drop (n + 100) (pick (decide (host = hostA)) s)) := by
        unfold listPage
        rw [Int.toNat_ofNat]
        rfl
      obtain ⟨r2, hrec, hst, hret⟩ := ih (n + 100)
        (results ++ (List.take 100 (List.drop n (pick (decide (host = hostA)) s))).filter isPlayed)
        (by omega) hp2
      refine ⟨_, fetchLoop_full (catalogEnv hostA hit ef) cfg host (fuel + 1) s s n results
        ⟨200, "200 OK", ⟨listPage (pick (decide (host = hostA)) s) 100 n,
          (pick (decide (host = hostA)) s).length, n⟩⟩ _ r2 rfl rfl (by simp [badStatus]) rfl ?_ ?_,
        hst, ?_⟩
      · simp only [hpage]
        exact hlen
      · simp only [hpage, hcast]
        exact hrec
      · simp only [hret, List.append_assoc]
        rw [← List.filter_append, ← List.drop_drop, List.take_append_drop]

/-- Discovery on the catalog servers, with fuel that covers the catalog:
it returns the played items of the source catalog and changes nothing. -/
theorem catalog_fetchPlayedItems (hostA : String) (hit : String → Item → Bool)
    (ef : String → String → Bool) (cfg : ServerConfig) (s : Catalogs) (fuel : Nat)
    (hfuel : (pick (decide (ensureScheme cfg.Host = hostA)) s).length < 100 * fuel) :
    ∃ f, fetchPlayedItems (catalogEnv hostA hit ef) cfg fuel s = some f ∧ f.state = s
      ∧ f.ret = .ok ((pick (decide (ensureScheme cfg.Host = hostA)) s).filter isPlayed) := by
  cases fuel with
  | zero => simp at hfuel
  | succ k =>
    obtain ⟨r, hr, hst, hret⟩ := catalog_fetchLoop hostA hit ef cfg (ensureScheme cfg.Host) s k 0 []
      (by omega)
    refine ⟨r, ?_, hst, by simpa using hret⟩
    unfold fetchPlayedItems
    simpa using hr

/-- A writing pass on the catalog servers, with fuel that covers the source
catalog: it returns without error, leaves the source catalog untouched, turns
the destination catalog into a later version of itself on which every played
source item has nothing left to do, and changes the servers only if it counts
something. -/
theorem catalog_syncDirection (hostA : String) (hit : String → Item → Bool)
    (ef : String → String → Bool) (fromCfg toCfg : ServerConfig) (tb : Bool)
    (hfb : decide (ensureScheme fromCfg.Host = hostA) = !tb)
    (htb : decide (ensureScheme toCfg.Host = hostA) = tb) (s : Catalogs) (fuel : Nat)
    (hfuel : (pick (!tb) s).length < 100 * fuel) :
    ∃ r, syncDirection (catalogEnv hostA hit ef) fromCfg toCfg false fuel s = some r
      ∧ r.ret.2 = none
      ∧ pick (!tb) r.state = pick (!tb) s
      ∧ List.Forall₂ Grown (pick tb s) (pick tb r.state)
      ∧ (∀ it ∈ (pick (!tb) s).filter isPlayed, Settled hit ef (pick tb r.state) it)
      ∧ (r.ret.1 = 0 → r.state = s) := by
  obtain ⟨f, hf, hst, hret⟩ := catalog_fetchPlayedItems hostA hit ef fromCfg s fuel
    (by rw [hfb]; exact hfuel)
  rw [hfb] at hret
  unfold syncDirection
  rw [hf]
  simp only [hret, hst]
  by_cases hlen : ((pick (!tb) s).filter isPlayed).length = 0
  · rw [if_pos hlen]
    refine ⟨_, rfl, rfl, rfl, grownList_refl _, ?_, fun _ => rfl⟩
    rw [List.length_eq_zero.1 hlen]
    simp
  · rw [if_neg hlen]
    obtain ⟨a1, a2, a3, _, a5⟩ := catalog_syncLoop hostA hit ef toCfg tb htb
      ((pick (!tb) s).filter isPlayed) s 0
    exact ⟨_, rfl, rfl, a1, a2, a3, a5⟩

/-- A writing pass on the catalog servers when every played source item has
nothing left to do on the destination: it counts nothing and changes
nothing. -/
theorem catalog_syncDirection_settled (hostA : String) (hit : String → Item → Bool)
    (ef : String → String → Bool) (fromCfg toCfg : ServerConfig) (tb : Bool)
    (hfb : decide (ensureScheme fromCfg.Host = hostA) = !tb)
    (htb : decide (ensureScheme toCfg.Host = hostA) = tb) (s : Catalogs) (fuel : Nat)
    (hfuel : (pick (!tb) s).length < 100 * fuel)
    (hs : ∀ it ∈ (pick (!tb) s).filter isPlayed, Settled hit ef (pick tb s) it) :
    ∃ r, syncDirection (catalogEnv hostA hit ef) fromCfg toCfg false fuel s = some r
      ∧ r.ret = (0, none) ∧ r.state = s := by
  obtain ⟨f, hf, hst, hret⟩ := catalog_fetchPlayedItems hostA hit ef fromCfg s fuel
    (by rw [hfb]; exact hfuel)
  rw [hfb] at hret
  unfold syncDirection
  rw [hf]
  simp only [hret, hst]
  by_cases hlen : ((pick (!tb) s).filter isPlayed).length = 0
  · rw [if_pos hlen]
    exact ⟨_, rfl, rfl, rfl⟩
  · rw [if_neg hlen]
    obtain ⟨b1, b2⟩ := catalog_syncLoop_settled hostA hit ef toCfg
      ((pick (!tb) s).filter isPlayed) s 0 (by rw [htb]; exact hs)
    refine ⟨_, rfl, ?_, b1⟩
    simp only [b2]

/-- A writing pass on the catalog servers that is repeated at once counts
nothing the second time and changes nothing. -/
theorem catalog_syncDirection_repeat (hostA : String) (hit : String → Item → Bool)
    (ef : String → String → Bool) (fromCfg toCfg : ServerConfig) (tb : Bool)
    (hfb : decide (ensureScheme fromCfg.Host = hostA) = !tb)
    (htb : decide (ensureScheme toCfg.Host = hostA) = tb) (s : Catalogs) (fuel : Nat)
    (hfuel : (pick (!tb) s).length < 100 * fuel) :
    ∃ r1 r2, syncDirection (catalogEnv hostA hit ef) fromCfg toCfg false fuel s = some r1
      ∧ syncDirection (catalogEnv hostA hit ef) fromCfg toCfg false fuel r1.state = some r2
      ∧ r2.ret = (0, none) ∧ r2.state = r1.state := by
  obtain ⟨r1, h1, _, a1, _, a3, _⟩ :=
    catalog_syncDirection hostA hit ef fromCfg toCfg tb hfb htb s fuel hfuel
  obtain ⟨r2, h2, b1, b2⟩ := catalog_syncDirection_settled hostA hit ef fromCfg toCfg tb hfb htb
    r1.state fuel (by rw [a1]; exact hfuel) (by rw [a1]; exact a3)
  exact ⟨r1, r2, h1, h2, b1, b2⟩

/-- C5 fails on `remakeCatalogs`: the first run marks nothing from `a` to `b`
and one item from `b` to `a`; the item it marked on `a` then makes the second
run mark the unplayed namesake on `b`, so the second run counts `(1, 0)`. -/
theorem twoRuns_remake :
    twoRuns exampleEnv cfgA cfgB 1 remakeCatalogs = some ((0, 1), (1, 0)) := by
  decide

/-- C5 as amended: on two catalog servers with distinct hosts, with fuel that
covers both catalogs, two writing runs in succession return, and the second
run counts `(0, 0)` exactly when every item that is played on `a` after the
first run has nothing left to do on `b`: the candidate that `findMatchingItem`
picks for it from the search on `b`, if any, is played.  The items that were
played on `a` before the first run always have nothing left to do on `b`
after it, so only items that the first run marked on `a` can make the second
run mark something. -/
theorem twoRuns_second_run (hit : String → Item → Bool) (ef : String → String → Bool)
    (a b : ServerConfig) (s0 : Catalogs) (fuel : Nat)
    (hhost : ensureScheme a.Host ≠ ensureScheme b.Host)
    (hfa : s0.a.length < 100 * fuel) (hfb : s0.b.length < 100 * fuel) :
    ∃ r1 m,
      mainPasses (catalogEnv (ensureScheme a.Host) hit ef) a b false fuel s0 = some r1
      ∧ twoRuns (catalogEnv (ensureScheme a.Host) hit ef) a b fuel s0 = some (r1.ret, m)
      ∧ (m = (0, 0) ↔ ∀ it ∈ r1.state.a.filter isPlayed, Settled hit ef r1.state.b it)
      ∧ (∀ it ∈ s0.a.filter isPlayed, Settled hit ef r1.state.b it) := by
  have hta : decide (ensureScheme a.Host = ensureScheme a.Host) = true := by simp
  have htb : decide (ensureScheme b.Host = ensureScheme a.Host) = false := by
    simp only [decide_eq_false_iff_not]
    exact fun h => hhost h.symm
  -- first run, from `a` to `b`
  obtain ⟨r1, h1, _, a1, a2, a3, _⟩ := catalog_syncDirection (ensureScheme a.Host) hit ef a b
    false hta htb s0 fuel hfa
  have a1t : pick true r1.state = pick true s0 := a1
  have a3t : ∀ it ∈ (pick true s0).filter isPlayed, Settled hit ef (pick false r1.state) it := a3
  have hlen1b : (pick false r1.state).length = s0.b.length := a2.length_eq.symm
  -- first run, from `b` to `a`
  obtain ⟨r2, h2, _, b1, b2, b3, _⟩ := catalog_syncDirection (ensureScheme a.Host) hit ef b a
    true htb hta r1.state fuel (by show (pick false r1.state).length < _; rw [hlen1b]; exact hfb)
  have b1t : pick false r2.state = pick false r1.state := b1
  have b3t : ∀ it ∈ (pick false r1.state).filter isPlayed,
      Settled hit ef (pick true r2.state) it := b3
  have hlen2a : (pick true r2.state).length = s0.a.length := by
    rw [← b2.length_eq, a1t]
    rfl
  have hlen2b : (pick false r2.state).length = s0.b.length := by rw [b1t, hlen1b]
  have hmain : mainPasses (catalogEnv (ensureScheme a.Host) hit ef) a b false fuel s0
      = some ⟨r2.state, r1.log ++ r2.log, (r1.ret.1, r2.ret.1)⟩ := by
    unfold mainPasses
    rw [h1]
    simp only [h2]
  -- second run, from `a` to `b`
  obtain ⟨r3, h3, _, _, c2, c3, c5⟩ := catalog_syncDirection (ensureScheme a.Host) hit ef a b
    false hta htb r2.state fuel (by show (pick true r2.state).length < _; rw [hlen2a]; exact hfa)
  have c3t : ∀ it ∈ (pick true r2.state).filter isPlayed,
      Settled hit ef (pick false r3.state) it := c3
  have hlen3b : (pick false r3.state).length = s0.b.length := by
    rw [← c2.length_eq, hlen2b]
  -- second run, from `b` to `a`
  obtain ⟨r4, h4, _, _, _, _, _⟩ := catalog_syncDirection (ensureScheme a.Host) hit ef b a
    true htb hta r3.state fuel (by show (pick false r3.state).length < _; rw [hlen3b]; exact hfb)
  have hmain2 : mainPasses (catalogEnv (ensureScheme a.Host) hit ef) a b false fuel r2.state
      = some ⟨r4.state, r3.log ++ r4.log, (r3.ret.1, r4.ret.1)⟩ := by
    unfold mainPasses
    rw [h3]
    simp only [h4]
  have htwo : twoRuns (catalogEnv (ensureScheme a.Host) hit ef) a b fuel s0
      = some ((r1.ret.1, r2.ret.1), (r3.ret.1, r4.ret.1)) := by
    unfold twoRuns
    rw [hmain]
    simp only [hmain2]
  refine ⟨_, (r3.ret.1, r4.ret.1), hmain, htwo, ⟨?_, ?_⟩, ?_⟩
  · intro hm
    have h30 : r3.ret.1 = 0 := congrArg Prod.fst hm
    have hst : r3.state = r2.state := c5 h30
    rw [hst] at c3t
    exact c3t
  · intro hcond
    obtain ⟨r3b, h3b, e1, e2⟩ := catalog_syncDirection_settled (ensureScheme a.Host) hit ef a b
      false hta htb r2.state fuel
      (by show (pick true r2.state).length < _; rw [hlen2a]; exact hfa) hcond
    rw [h3] at h3b
    cases h3b
    obtain ⟨r4b, h4b, f1, _⟩ := catalog_syncDirection_settled (ensureScheme a.Host) hit ef b a
      true htb hta r2.state fuel
      (by show (pick false r2.state).length < _; rw [hlen2b]; exact hfb)
      (by
        show ∀ it ∈ (pick false r2.state).filter isPlayed, _
        rw [b1t]
        exact b3t)
    rw [e2] at h4
    rw [h4] at h4b
    cases h4b
    rw [e1, f1]
  · show ∀ it ∈ (pick true s0).filter isPlayed, Settled hit ef (pick false r2.state) it
    rw [b1t]
    exact a3t

/-- C5 as amended, on `crossCatalogs`: each pass of the first run marks one
item, and the second run marks nothing. -/
theorem twoRuns_second_run_witness :
    (∃ r1 m,
      mainPasses (catalogEnv (ensureScheme cfgA.Host) sameName asciiEqualFold) cfgA cfgB false 1
          crossCatalogs = some r1
      ∧ twoRuns (catalogEnv (ensureScheme cfgA.Host) sameName asciiEqualFold) cfgA cfgB 1
          crossCatalogs = some (r1.ret, m)
      ∧ (m = (0, 0) ↔
          ∀ it ∈ r1.state.a.filter isPlayed, Settled sameName asciiEqualFold r1.state.b it)
      ∧ (∀ it ∈ crossCatalogs.a.filter isPlayed, Settled sameName asciiEqualFold r1.state.b it))
    ∧ twoRuns exampleEnv cfgA cfgB 1 crossCatalogs = some ((1, 1), (0, 0)) :=
  ⟨twoRuns_second_run sameName asciiEqualFold cfgA cfgB crossCatalogs 1
    (by decide) (by decide) (by decide), by decide⟩

/-- C10 on `settledServer`: the played match of the first item is skipped,
and the only mark-played request follows the search for the second item. -/
theorem syncDirection_already_played_witness :
    (∀ pre it post cands m, [seenItem, countedItem] = pre ++ it :: post →
        (searchItems settledServer cfgB it.Name
          (syncLoop settledServer cfgB false pre () 0).state).ret = .ok cands →
        findMatchingItem settledServer.EqualFold it cands = some m → isPlayed m = true →
        (⟨(), [⟨Request.listItems "https://a.example.org" "ua" "ta" 100 0, okItems demoPage⟩,
              ⟨Request.searchItems "http://b.example.org" "ub" "tb" "Alpha", okItems [alphaPlayed]⟩,
              ⟨Request.searchItems "http://b.example.org" "ub" "tb" "Beta", okItems [betaUnplayed]⟩,
              ⟨Request.markPlayed "http://b.example.org" "ub" "tb" "b2", noContent⟩],
            (1, none)⟩ : Run Unit ItemsResponse (Int × Option (GoError ItemsResponse)))
          = ⟨(syncLoop settledServer cfgB false post
                (searchItems settledServer cfgB it.Name
                  (syncLoop settledServer cfgB false pre () 0).state).state
                (syncLoop settledServer cfgB false pre () 0).ret).state,
              [⟨Request.listItems "https://a.example.org" "ua" "ta" 100 0, okItems demoPage⟩]
                ++ ((syncLoop settledServer cfgB false pre () 0).log
                ++ ((searchItems settledServer cfgB it.Name
                      (syncLoop settledServer cfgB false pre () 0).state).log
                  ++ (syncLoop settledServer cfgB false post
                    (searchItems settledServer cfgB it.Name
                      (syncLoop settledServer cfgB false pre () 0).state).state
                    (syncLoop settledServer cfgB false pre () 0).ret).log)),
              ((syncLoop settledServer cfgB false post
                (searchItems settledServer cfgB it.Name
                  (syncLoop settledServer cfgB false pre () 0).state).state
                (syncLoop settledServer cfgB false pre () 0).ret).ret, none)⟩
        ∧ ∀ e ∈ (searchItems settledServer cfgB it.Name
              (syncLoop settledServer cfgB false pre () 0).state).log,
            isMarkRequest e.req = false)
    ∧ MarksFollowSearch settledServer cfgB [seenItem, countedItem]
        [⟨Request.listItems "https://a.example.org" "ua" "ta" 100 0, okItems demoPage⟩,
          ⟨Request.searchItems "http://b.example.org" "ub" "tb" "Alpha", okItems [alphaPlayed]⟩,
          ⟨Request.searchItems "http://b.example.org" "ub" "tb" "Beta", okItems [betaUnplayed]⟩,
          ⟨Request.markPlayed "http://b.example.org" "ub" "tb" "b2", noContent⟩]
    ∧ (false = true → ∀ e ∈
        ([⟨Request.listItems "https://a.example.org" "ua" "ta" 100 0, okItems demoPage⟩,
          ⟨Request.searchItems "http://b.example.org" "ub" "tb" "Alpha", okItems [alphaPlayed]⟩,
          ⟨Request.searchItems "http://b.example.org" "ub" "tb" "Beta", okItems [betaUnplayed]⟩,
          ⟨Request.markPlayed "http://b.example.org" "ub" "tb" "b2", noContent⟩] :
            List (Exchange ItemsResponse)),
        isMarkRequest e.req = false) :=
  syncDirection_already_played settledServer cfgA cfgB false 1 ()
    ⟨(), [⟨Request.listItems "https://a.example.org" "ua" "ta" 100 0, okItems demoPage⟩],
      .ok [seenItem, countedItem]⟩ [seenItem, countedItem]
    ⟨(), [⟨Request.listItems "https://a.example.org" "ua" "ta" 100 0, okItems demoPage⟩,
        ⟨Request.searchItems "http://b.example.org" "ub" "tb" "Alpha", okItems [alphaPlayed]⟩,
        ⟨Request.searchItems "http://b.example.org" "ub" "tb" "Beta", okItems [betaUnplayed]⟩,
        ⟨Request.markPlayed "http://b.example.org" "ub" "tb" "b2", noContent⟩],
      (1, none)⟩ rfl rfl rfl

end SyncPlayed
